import Mathlib

/-!
Outline extraction (`extractOutline.js`): embedding and verified properties

The embedding follows `extractOutline` stage by stage: the glyph collector, the font
histogram and hierarchy, the line assembler, the heading classifier and the deduplicator.

Modelling conventions.

* A JavaScript string is a list of code units, `Str := List Char`; `length` is the list
  length.  `toLowerCase` / `toUpperCase` map the ASCII letters and leave every other code
  unit unchanged.
* A JavaScript number that the program reads from the document (`transform[0]`, `height`,
  `transform[4]`, `transform[5]`) is a rational; `undefined` and `NaN` are not represented, so
  a number is falsy exactly when it is `0`.  `Math.round` is `⌊q + 1/2⌋`.
* `Array.prototype.sort` with a consistent comparator is the stable sort, `jsSort`.
* An object used as a map (`fontSizeMap`, `lines`) is an association list in insertion
  order; `Object.keys` lists the array-index keys in ascending order first.
  A key of `fontSizeMap` is the string of a size; `parseKey` is `parseInt` of that string.
* `console.log`, the timing code and the `timestamp` of the error result are left out.
-/

namespace ExtractOutline

/-! ## Strings -/

/-- A string, as its list of code units. -/
abbrev Str := List Char

/-- The code units that `String.prototype.trim` strips and that `\s` matches
(WhiteSpace and LineTerminator of ECMAScript). -/
def isWhiteSpace (c : Char) : Bool :=
  let n := c.toNat
  n == 9 || n == 10 || n == 11 || n == 12 || n == 13 || n == 32 || n == 160 || n == 5760
    || (decide (8192 ≤ n) && decide (n ≤ 8202)) || n == 8232 || n == 8233 || n == 8239
    || n == 8287 || n == 12288 || n == 65279

/-- The method `String.prototype.trim`. -/
def trim (s : Str) : Str :=
  ((s.dropWhile isWhiteSpace).reverse.dropWhile isWhiteSpace).reverse

/-- The method `String.prototype.toLowerCase`, on the ASCII letters. -/
def toLowerCase (s : Str) : Str := s.map Char.toLower

/-- The method `String.prototype.toUpperCase`, on the ASCII letters. -/
def toUpperCase (s : Str) : Str := s.map Char.toUpper

/-- The test `s.includes(t)`: `t` occurs in `s` as a contiguous substring. -/
def includes : Str → Str → Bool
  | [], t => t.isEmpty
  | c :: s, t => t.isPrefixOf (c :: s) || includes s t

/-- The string `parts.join(' ')`. -/
def joinSpace (parts : List Str) : Str := [' '].intercalate parts

/-- The regular expression `/^[A-Z]/`. -/
def startsWithCapital : Str → Bool
  | [] => false
  | c :: _ => decide ('A'.toNat ≤ c.toNat) && decide (c.toNat ≤ 'Z'.toNat)

/-- The regular expression `/[.!?;,]$/`. -/
def endsWithPunctuation (s : Str) : Bool :=
  match s.getLast? with
  | none => false
  | some c => c == '.' || c == '!' || c == '?' || c == ';' || c == ','

/-- The character class `\d`. -/
def isDigit (c : Char) : Bool := decide ('0'.toNat ≤ c.toNat) && decide (c.toNat ≤ '9'.toNat)

/-- The regular expression `/^\d+\.?\s/`: one or more digits, an optional dot, then one
whitespace code unit. -/
def startsWithNumbering (s : Str) : Bool :=
  match s with
  | [] => false
  | c :: _ =>
    isDigit c &&
      (match s.dropWhile isDigit with
       | [] => false
       | d :: rest =>
         isWhiteSpace d ||
           (d == '.' && (match rest with
                         | [] => false
                         | e :: _ => isWhiteSpace e)))

/-! ## Numbers -/

/-- The function `Math.round`: the nearest integer, a tie going up. -/
def mathRound (q : ℚ) : Int := Int.floor (q + 1 / 2)

/-- The value `a || b` on numbers: `a` unless it is falsy, that is `0`. -/
def orElse (a b : ℚ) : ℚ := if a ≠ 0 then a else b

/-- The array after `xs.sort(cmp)`: `a` goes before `b` when `cmp a b < 0`, after it when `cmp a b > 0`, and
the two keep their order when `cmp a b = 0` (the sort is stable). -/
def jsSort {α : Type} (cmp : α → α → ℚ) (xs : List α) : List α :=
  xs.insertionSort (fun a b => cmp a b ≤ 0)

/-! ## Data model -/

/-- One item of `page.getTextContent().items`, with the fields `extractOutline` reads. -/
structure TextContentItem where
  str : Str
  transform0 : ℚ
  height : ℚ
  transform4 : ℚ
  transform5 : ℚ
deriving DecidableEq

/-- The `textItem` record the collector pushes on `allText` (a glyph run). -/
structure TextItem where
  text : Str
  fontSize : Int
  y : Int
  page : Nat
  x : Int
deriving DecidableEq

/-- The heading levels `'H1'`, `'H2'`, `'H3'`. -/
inductive Level where
  | H1
  | H2
  | H3
deriving DecidableEq

/-- An entry pushed on `outline`: a heading candidate, with its `fontSize`. -/
structure HeadingCandidate where
  level : Level
  text : Str
  page : Nat
  fontSize : Int
deriving DecidableEq

/-- An entry of the returned outline. -/
structure OutlineEntry where
  level : Level
  text : Str
  page : Nat
deriving DecidableEq

/-- The returned object; `error` is present on the failure path only. -/
structure OutlineResult where
  title : Str
  outline : List OutlineEntry
  error : Option Str
deriving DecidableEq

/-! ## Glyph collector (lines 107-145) -/

/-- The body of `content.items.forEach`: the run is skipped when its trimmed text is empty
or shorter than 2, and otherwise yields the `textItem` that is pushed. -/
def collectItem (pageNum : Nat) (item : TextContentItem) : Option TextItem :=
  let text := trim item.str
  if text.isEmpty || decide (text.length < 2) then none
  else
    some
      { text := text
        fontSize := mathRound (orElse (orElse item.transform0 item.height) 12)
        y := mathRound item.transform5
        page := pageNum
        x := mathRound item.transform4 }

/-- The page loop from `pageNum` on: the items pushed on `allText`, in order. -/
def collectPages : Nat → List (List TextContentItem) → List TextItem
  | _, [] => []
  | pageNum, content :: rest =>
    content.filterMap (collectItem pageNum) ++ collectPages (pageNum + 1) rest

/-- The array `allText` after the page loop; `totalTextItems` is its length. -/
def allText (pages : List (List TextContentItem)) : List TextItem :=
  collectPages 1 pages

/-! ## Font histogram and hierarchy (lines 127, 170-189) -/

/-- The object `fontSizeMap`: font size to character count, in insertion order. -/
abbrev FontSizeMap := List (Int × Nat)

/-- The value `fontSizeMap[size]`, `0` standing for an absent key. -/
def FontSizeMap.count : FontSizeMap → Int → Nat
  | [], _ => 0
  | (k, v) :: m, size => if k = size then v else FontSizeMap.count m size

/-- The update `fontSizeMap[fontSize] = (fontSizeMap[fontSize] || 0) + n`. -/
def FontSizeMap.add : FontSizeMap → Int → Nat → FontSizeMap
  | [], size, n => [(size, n)]
  | (k, v) :: m, size, n =>
    if k = size then (k, v + n) :: m else (k, v) :: FontSizeMap.add m size n

/-- The histogram after the page loop: every pushed item adds its text length. -/
def fontSizeMap (items : List TextItem) : FontSizeMap :=
  items.foldl (fun m item => FontSizeMap.add m item.fontSize item.text.length) []

/-- An integer key is an array index when it is in `0 .. 2^32 - 2`. -/
def isArrayIndex (k : Int) : Bool := decide (0 ≤ k) && decide (k < 4294967295)

/-- The keys of `fontSizeMap` in the order of `Object.keys`, each key string given by the
size it spells: array indices ascending, then the other keys in insertion order. -/
def objectKeys (m : FontSizeMap) : List Int :=
  ((m.map Prod.fst).filter isArrayIndex).insertionSort (fun a b => a ≤ b)
    ++ (m.map Prod.fst).filter (fun k => !isArrayIndex k)

/-- The leading decimal digit of a natural number, with fuel for the divisions by 10. -/
def leadingDigitAux : Nat → Nat → Nat
  | 0, n => n
  | fuel + 1, n => if n < 10 then n else leadingDigitAux fuel (n / 10)

/-- The leading decimal digit of a natural number. -/
def leadingDigit (n : Nat) : Nat := leadingDigitAux n n

/-- The number `parseInt(s)` for the key string `s` of a size (line 172).  A size of
magnitude below `10^21` is spelled by its decimal digits and reads back as itself; from
`10^21` on the key is in exponent notation (`1e+21`, `-2.5e+22`) and `parseInt` stops at
the `.` or the `e`, so that it reads the sign and the leading digit only (the leading digit
of the shortest decimal form of the number, which is the leading decimal digit of a size
with at most 15 significant digits). -/
def parseKey (size : Int) : Int :=
  if size.natAbs < 10 ^ 21 then size
  else if size < 0 then -((leadingDigit size.natAbs : Nat) : Int)
  else ((leadingDigit size.natAbs : Nat) : Int)

/-- The read `fontSizeMap[size]` of lines 176 and 182: `undefined` (`none`) for a number
that is not the size of a key. -/
def FontSizeMap.lookup : FontSizeMap → Int → Option Nat
  | [], _ => none
  | (k, v) :: m, size => if k = size then some v else FontSizeMap.lookup m size

/-- The comparator of the size sort: `sizeWeight + freqWeight`.  The factor `0.05` is the
rational `5/100`; the sort reads only the sign of the result, which the rounding of the
double arithmetic does not change.  When one of the two numbers has no count, `freqWeight`
and the result are `NaN`, which the sort reads as `+0`. -/
def sizeCompare (m : FontSizeMap) (a b : Int) : ℚ :=
  match m.lookup a, m.lookup b with
  | some countA, some countB =>
    let sizeWeight : ℚ := ((b - a : Int) : ℚ)
    let freqWeight : ℚ := (((countA : Int) - (countB : Int) : Int) : ℚ) * (5 / 100)
    sizeWeight + freqWeight
  | _, _ => 0

/-- The array `sortedSizes`: the keys, read back by `parseInt`, then sorted.  (When a
number without a count stands among three or more, the comparator is not consistent and
the order is the one of this stable insertion sort.) -/
def sortedSizes (m : FontSizeMap) : List Int :=
  jsSort (sizeCompare m) ((objectKeys m).map parseKey)

/-- The test `fontSizeMap[curr] > fontSizeMap[prev]`, false against `undefined`. -/
def countGreater (m : FontSizeMap) (curr prev : Int) : Bool :=
  match m.lookup curr, m.lookup prev with
  | some c, some p => decide (c > p)
  | _, _ => false

/-- The value `bodySize`: `sortedSizes.reduce(...)` without an initial value, which throws
on an empty array (`none`). -/
def bodySize (m : FontSizeMap) : List Int → Option Int
  | [] => none
  | s :: rest =>
    some (rest.foldl (fun prev curr => if countGreater m curr prev then curr else prev) s)

/-- The array `headingSizes`. -/
def headingSizes (sorted : List Int) (body : Int) : List Int :=
  (sorted.filter (fun size => decide (size > body))).take 4

/-- The destructured `[H1Size, H2Size, H3Size, H4Size]`, with the body size; an absent
entry is `undefined` (`none`). -/
structure Hierarchy where
  H1Size : Option Int
  H2Size : Option Int
  H3Size : Option Int
  H4Size : Option Int
  bodySize : Int
deriving DecidableEq

/-- The hierarchy read off `headingSizes`. -/
def hierarchyOf (sizes : List Int) (body : Int) : Hierarchy :=
  { H1Size := sizes.get? 0
    H2Size := sizes.get? 1
    H3Size := sizes.get? 2
    H4Size := sizes.get? 3
    bodySize := body }

/-! ## Line assembler (lines 193-217) -/

/-- The key of a line: the pair that the template string `page-band` spells out, with
`band = Math.round(item.y / 3) * 3`. -/
def lineKey (item : TextItem) : Nat × Int :=
  (item.page, mathRound ((item.y : ℚ) / 3) * 3)

/-- The object `lines`: line key to the items pushed under it, in insertion order. -/
abbrev Lines := List ((Nat × Int) × List TextItem)

/-- The body of `allText.forEach`: the item is pushed on the array of its key, which is
created first when the key is new. -/
def pushLine : Lines → TextItem → Lines
  | [], item => [(lineKey item, [item])]
  | (k, lineItems) :: rest, item =>
    if k = lineKey item then (k, lineItems ++ [item]) :: rest
    else (k, lineItems) :: pushLine rest item

/-- The arrays `Object.values(lines)`, in discovery order. -/
def lines (items : List TextItem) : List (List TextItem) :=
  (items.foldl pushLine []).map Prod.snd

/-- The comparator `(a, b) => a.x - b.x`. -/
def xCompare (a b : TextItem) : ℚ := ((a.x - b.x : Int) : ℚ)

/-- The array `lineItems` after `lineItems.sort((a, b) => a.x - b.x)`. -/
def sortedLineItems (lineItems : List TextItem) : List TextItem :=
  jsSort xCompare lineItems

/-- The string `lineText`. -/
def lineText (lineItems : List TextItem) : Str :=
  trim (joinSpace ((sortedLineItems lineItems).map (fun item => item.text)))

/-- The number `roundedSize`: the mean of the members' font sizes, rounded. -/
def roundedSize (lineItems : List TextItem) : Int :=
  mathRound ((((lineItems.map (fun item => item.fontSize)).sum : Int) : ℚ)
    / ((lineItems.length : Nat) : ℚ))

/-- The number `pageNum`, `lineItems[0].page` after the sort (a line is never empty). -/
def pageNum (lineItems : List TextItem) : Nat :=
  match sortedLineItems lineItems with
  | [] => 0
  | item :: _ => item.page

/-! ## Heading classifier (lines 203-265) -/

/-- Truthiness of a heading size: defined and not `0`. -/
def truthy : Option Int → Bool
  | none => false
  | some n => n != 0

/-- The test `roundedSize >= size`, false against `undefined`. -/
def geSize (r : Int) : Option Int → Bool
  | none => false
  | some n => decide (r ≥ n)

/-- The test `roundedSize < size`, false against `undefined`. -/
def ltSize (r : Int) : Option Int → Bool
  | none => false
  | some n => decide (r < n)

/-- Primary detection (lines 219-231): the level the font size gives, if any. -/
def sizeLevel (h : Hierarchy) (r : Int) : Option Level :=
  if truthy h.H1Size && geSize r h.H1Size then some Level.H1
  else if truthy h.H2Size && geSize r h.H2Size && ltSize r h.H1Size then some Level.H2
  else if truthy h.H3Size && geSize r h.H3Size && ltSize r h.H2Size then some Level.H3
  else if truthy h.H4Size && geSize r h.H4Size && ltSize r h.H3Size then some Level.H3
  else none

/-- The signal `isAllCaps`. -/
def isAllCaps (text : Str) : Bool :=
  decide (text = toUpperCase text) && decide (text.length > 2)

/-- The condition of line 243: the line qualifies for the heuristic rules. -/
def heuristicQualifies (text : Str) (lineItems : List TextItem) : Bool :=
  let isReasonableLength := decide (text.length ≥ 5) && decide (text.length ≤ 100)
  let hasCapitalization := startsWithCapital text
  let endsWithoutPunctuation := !endsWithPunctuation text
  let hasNumbers := startsWithNumbering text
  let isIsolated := decide (lineItems.length = 1)
  isReasonableLength && (isAllCaps text || hasNumbers
    || (hasCapitalization && endsWithoutPunctuation && isIsolated))

/-- Fallback detection (lines 233-254), entered when the font size gave no level: the
level the heuristic rules give, if any. -/
def heuristicLevel (h : Hierarchy) (text : Str) (lineItems : List TextItem) (r : Int) :
    Option Level :=
  if decide (text.length < 150) && decide (text.length > 5) then
    if heuristicQualifies text lineItems then
      if r ≥ h.bodySize + 3 then some Level.H1
      else if r ≥ h.bodySize + 1 then some Level.H2
      else if decide (r ≥ h.bodySize) || isAllCaps text || startsWithNumbering text then
        some Level.H3
      else none
    else none
  else none

/-- The value of `level` at line 256, for a line that passed the gate of line 213. -/
def detectLevel (h : Hierarchy) (lineItems : List TextItem) : Option Level :=
  match sizeLevel h (roundedSize lineItems) with
  | some l => some l
  | none => heuristicLevel h (lineText lineItems) lineItems (roundedSize lineItems)

/-- The value of `title` after the two detections, from its value before them: the size
branch for H1 sets an unset title when the text is shorter than 100, the heuristic branch
for H1 sets an unset title. -/
def detectTitle (h : Hierarchy) (title : Str) (lineItems : List TextItem) : Str :=
  match sizeLevel h (roundedSize lineItems) with
  | some Level.H1 =>
    if title.isEmpty && decide ((lineText lineItems).length < 100) then lineText lineItems
    else title
  | some _ => title
  | none =>
    match heuristicLevel h (lineText lineItems) lineItems (roundedSize lineItems) with
    | some Level.H1 => if title.isEmpty then lineText lineItems else title
    | _ => title

/-- The variables the line loop updates: `outline`, `title` and `seenTexts`. -/
structure ClassifyState where
  outline : List HeadingCandidate
  title : Str
  seenTexts : List Str
deriving DecidableEq

/-- The state before the line loop. -/
def ClassifyState.init : ClassifyState :=
  { outline := [], title := [], seenTexts := [] }

/-- The gate of line 213: the line is skipped. -/
def skipLine (st : ClassifyState) (lineItems : List TextItem) : Bool :=
  (lineText lineItems).isEmpty || decide ((lineText lineItems).length < 3)
    || st.seenTexts.contains (toLowerCase (lineText lineItems))

/-- The body of `Object.values(lines).forEach` (lines 208-265). -/
def processLine (h : Hierarchy) (st : ClassifyState) (lineItems : List TextItem) :
    ClassifyState :=
  if skipLine st lineItems then st
  else
    let title := detectTitle h st.title lineItems
    match detectLevel h lineItems with
    | some level =>
      if decide ((lineText lineItems).length ≥ 3) then
        { outline := st.outline ++
            [{ level := level
               text := lineText lineItems
               page := pageNum lineItems
               fontSize := roundedSize lineItems }]
          title := title
          seenTexts := st.seenTexts ++ [toLowerCase (lineText lineItems)] }
      else { st with title := title }
    | none => { st with title := title }

/-- The line loop from a given state. -/
def processLines (h : Hierarchy) (st : ClassifyState) (ls : List (List TextItem)) :
    ClassifyState :=
  ls.foldl (processLine h) st

/-! ## Deduplicator and assembler (lines 269-322) -/

/-- The callback of `cleanOutline.some` (lines 272-277). -/
def similarTo (existing : OutlineEntry) (item : HeadingCandidate) : Bool :=
  let textSimilarity := decide (toLowerCase existing.text = toLowerCase item.text)
  let containsSimilar :=
    includes (toLowerCase existing.text) (toLowerCase item.text)
      && decide (Int.natAbs ((existing.text.length : Int) - (item.text.length : Int)) < 10)
  textSimilarity || containsSimilar

/-- The flag `isDuplicate`. -/
def isDuplicate (clean : List OutlineEntry) (item : HeadingCandidate) : Bool :=
  clean.any (fun existing => similarTo existing item)

/-- The entry `cleanItem`: the candidate without its `fontSize`. -/
def cleanItem (item : HeadingCandidate) : OutlineEntry :=
  { level := item.level, text := item.text, page := item.page }

/-- The body of `outline.forEach` (lines 271-284). -/
def cleanStep (clean : List OutlineEntry) (item : HeadingCandidate) : List OutlineEntry :=
  if !isDuplicate clean item && decide (item.text.length ≥ 3) then clean ++ [cleanItem item]
  else clean

/-- The array `cleanOutline` before it is sorted. -/
def cleanOutline (outline : List HeadingCandidate) : List OutlineEntry :=
  outline.foldl cleanStep []

/-- The comparator of lines 287-290. -/
def pageCompare (a b : OutlineEntry) : ℚ :=
  if a.page ≠ b.page then (((a.page : Int) - (b.page : Int) : Int) : ℚ) else 0

/-- The array `cleanOutline` after `cleanOutline.sort(...)`. -/
def sortedOutline (clean : List OutlineEntry) : List OutlineEntry :=
  jsSort pageCompare clean

/-- The array `fallbackOutline` (lines 297-313). -/
def fallbackOutline : List OutlineEntry :=
  [ { level := Level.H1, text := "Document Overview".toList, page := 1 },
    { level := Level.H2, text := "Main Content".toList, page := 1 },
    { level := Level.H3, text := "Section Details".toList, page := 2 } ]

/-- The placeholder title. -/
def placeholderTitle : Str := "Document Analysis Complete".toList

/-- The object `dummyResult` (lines 43-97). -/
def dummyResult : OutlineResult :=
  { title := "Understanding AI".toList
    outline :=
      [ { level := Level.H1, text := "Introduction".toList, page := 1 },
        { level := Level.H2, text := "What is AI?".toList, page := 2 },
        { level := Level.H3, text := "History of AI".toList, page := 3 },
        { level := Level.H2, text := "Machine Learning Fundamentals".toList, page := 5 },
        { level := Level.H3, text := "Supervised Learning".toList, page := 6 },
        { level := Level.H3, text := "Unsupervised Learning".toList, page := 8 },
        { level := Level.H2, text := "Applications of AI".toList, page := 12 },
        { level := Level.H3, text := "Healthcare".toList, page := 13 },
        { level := Level.H3, text := "Finance".toList, page := 15 },
        { level := Level.H2, text := "Future of AI".toList, page := 18 } ]
    error := none }

/-- The result returned when no text was found (lines 151-168). -/
def noTextResult : OutlineResult :=
  { title := placeholderTitle
    outline :=
      [ { level := Level.H1, text := "Document Content".toList, page := 1 },
        { level := Level.H2, text := "Main Section".toList, page := 1 } ]
    error := none }

/-- The result returned from the `catch` block (lines 338-366). -/
def errorResult (message : Str) : OutlineResult :=
  { title := "Error Processing Document".toList
    outline :=
      [ { level := Level.H1, text := "Document Processing Error".toList, page := 1 },
        { level := Level.H2, text := "Unable to extract content".toList, page := 1 },
        { level := Level.H3, text := "Please check document format".toList, page := 1 } ]
    error := some message }

/-- The message of the `TypeError` that `reduce` throws on an empty array. -/
def reduceErrorMessage : Str := "Reduce of empty array with no initial value".toList

/-- The hierarchy of a document with collected items, when `reduce` does not throw. -/
def hierarchy (items : List TextItem) : Option Hierarchy :=
  match bodySize (fontSizeMap items) (sortedSizes (fontSizeMap items)) with
  | none => none
  | some body => some (hierarchyOf (headingSizes (sortedSizes (fontSizeMap items)) body) body)

/-- The state after the line loop over the collected items, under a hierarchy. -/
def classify (h : Hierarchy) (items : List TextItem) : ClassifyState :=
  processLines h ClassifyState.init (lines items)

/-- Lines 286-322: the sorted clean outline, or the fallback outline when it is empty, and
the title or its placeholder. -/
def assemble (st : ClassifyState) : OutlineResult :=
  let clean := sortedOutline (cleanOutline st.outline)
  { title := if st.title.isEmpty then placeholderTitle else st.title
    outline := if clean.length = 0 then clean ++ fallbackOutline else clean
    error := none }

/-- Lines 107-336, for a loaded document with at least one page when dummy data is off. -/
def analyse (pages : List (List TextContentItem)) : OutlineResult :=
  if (allText pages).length = 0 then noTextResult
  else
    match hierarchy (allText pages) with
    | none => errorResult reduceErrorMessage
    | some h => assemble (classify h (allText pages))

/-- What the code before the page loop yields: the load throws with a message (missing or
empty file, rejected document), or gives the pages of the document. -/
inductive Load where
  | failed (message : Str)
  | loaded (pages : List (List TextContentItem))

/-- The function `extractOutline`: `useDummy` is `process.env.USE_DUMMY === 'true'`. -/
def extractOutline (useDummy : Bool) : Load → OutlineResult
  | Load.failed message => errorResult message
  | Load.loaded pages =>
    if useDummy || decide (pages.length = 0) then dummyResult
    else analyse pages


/-! ## Sample documents -/

/-- A run of a page with the given text, horizontal scale (also its height) and position. -/
def run (text : String) (scale x y : ℚ) : TextContentItem :=
  { str := text.toList, transform0 := scale, height := scale, transform4 := x, transform5 := y }

/-- A page whose size 14 carries 50 characters and whose size 12 carries 2, over a body of
60 characters at size 10. -/
def frequentLargeSizeDocument : List (List TextContentItem) :=
  [[run "this paragraph is the body text of the sample page, 60 chars" 10 0 700,
    run "ab" 12 0 650,
    run "a large heading that runs on for fifty code units." 14 0 600]]

/-- A page with a size 14 and a size 12 line of 10 characters each over a body of 60
characters at size 10. -/
def plainSizesDocument : List (List TextContentItem) :=
  [[run "Title line" 14 0 700,
    run "Next level" 12 0 650,
    run "this paragraph is the body text of the sample page, 60 chars" 10 0 600]]

/-- A page of mirrored text (negative horizontal scales) with one line of scale 0.4, whose
font size rounds to 0. -/
def zeroSizeDocument : List (List TextContentItem) :=
  [[run "hello world" (2 / 5) 0 700,
    run "mirrored a" (-1) 0 650,
    run "mirrored b" (-2) 0 600,
    run "thirty code units of body text" (-3) 0 550]]

/-- A page with the headings "Results" and, further down, "Results and" at size 14 over a
body of size 10. -/
def containedHeadingDocument : List (List TextContentItem) :=
  [[run "Results" 14 0 700,
    run "this paragraph is the body text of the sample page, 60 chars" 10 0 650,
    run "Results and" 14 0 600]]

/-- A page with the lines "Chapter 1 Overview" and "chapter 1 overview" at size 14 over a
body of size 10. -/
def caseVariantDocument : List (List TextContentItem) :=
  [[run "Chapter 1 Overview" 14 0 700,
    run "chapter 1 overview" 14 0 650,
    run "this paragraph is the body text of the sample page, 60 chars" 10 0 600]]

/-- A page with one line of lower-case body text. -/
def bodyOnlyDocument : List (List TextContentItem) :=
  [[run "this paragraph is the body text of the sample page, 60 chars" 10 0 700]]

/-- Two pages on which every run is blank or a single character after trimming. -/
def blankDocument : List (List TextContentItem) :=
  [[run " " 12 0 700, run " a  " 12 0 650], [run "" 12 0 700]]

/-- A hierarchy without heading sizes over a body of size 10. -/
def bodyTenHierarchy : Hierarchy :=
  { H1Size := none, H2Size := none, H3Size := none, H4Size := none, bodySize := 10 }

/-- A line of two runs at size 10 whose text, "Summary of the work...", ends in
punctuation. -/
def summaryLine : List TextItem :=
  [ { text := "Summary of".toList, fontSize := 10, y := 700, page := 1, x := 0 },
    { text := "the work...".toList, fontSize := 10, y := 700, page := 1, x := 100 } ]

/-- A page whose first line is "INTRODUCTION" at the body size 10. -/
def introductionDocument : List (List TextContentItem) :=
  [[run "INTRODUCTION" 10 0 700,
    run "this paragraph is the body text of the sample page, 60 chars" 10 0 650]]

/-- A page with two runs in one vertical band, the second one to the left of the first. -/
def twoRunLineDocument : List (List TextContentItem) :=
  [[run "Annual" 12 100 700, run "Report" 12 10 699]]

/-- A page with the single run "Title line" of horizontal scale `1e21`. -/
def hugeSizeDocument : List (List TextContentItem) :=
  [[run "Title line" (10 ^ 21) 0 700]]

/-! ## Notions used in the statements -/

/-- The array `lines[key]` of the object `lines`, empty for an absent key. -/
def linesAt : Lines → Nat × Int → List TextItem
  | [], _ => []
  | (k, lineItems) :: rest, key => if k = key then lineItems else linesAt rest key


/-- A line is classified as a heading under a hierarchy: its text passes the length gate of
line 213 and one of the two detections gives it a level. -/
def isHeadingLine (h : Hierarchy) (lineItems : List TextItem) : Bool :=
  !((lineText lineItems).isEmpty || decide ((lineText lineItems).length < 3))
    && (detectLevel h lineItems).isSome

/-- A line, met in a given state of the loop, is classified H1 in one of the two ways that
set a title: it is not skipped, and either the font size gives H1 and the text is shorter
than 100, or the font size gives nothing and the heuristic rules give H1. -/
def claimsTitle (h : Hierarchy) (st : ClassifyState) (lineItems : List TextItem) : Bool :=
  !skipLine st lineItems &&
    (match sizeLevel h (roundedSize lineItems) with
     | some Level.H1 => decide ((lineText lineItems).length < 100)
     | some _ => false
     | none =>
       decide (heuristicLevel h (lineText lineItems) lineItems (roundedSize lineItems)
         = some Level.H1))

/-- The invariant of the line loop: every candidate is the entry of a processed line that
is a heading line and that no earlier heading line equals ignoring case, and the lower-cased
text of every processed heading line has been seen. -/
def LoopInvariant (h : Hierarchy) (st : ClassifyState) (processed : List (List TextItem)) :
    Prop :=
  (∀ c ∈ st.outline, ∃ pre lineItems post,
      processed = pre ++ lineItems :: post ∧
        c.text = lineText lineItems ∧ c.page = pageNum lineItems ∧
        detectLevel h lineItems = some c.level ∧
        isHeadingLine h lineItems = true ∧
        ∀ earlier ∈ pre, isHeadingLine h earlier = true →
          toLowerCase (lineText earlier) ≠ toLowerCase (lineText lineItems)) ∧
    ∀ earlier ∈ processed, isHeadingLine h earlier = true →
      toLowerCase (lineText earlier) ∈ st.seenTexts

/-! ## Sorting -/

theorem jsSort_perm {α : Type} (cmp : α → α → ℚ) (xs : List α) : (jsSort cmp xs).Perm xs :=
  List.perm_insertionSort _ xs

theorem pageCompare_nonpos_iff (a b : OutlineEntry) : pageCompare a b ≤ 0 ↔ a.page ≤ b.page := by
  unfold pageCompare
  split_ifs with h
  · rw [Int.cast_nonpos]; omega
  · simp only [ne_eq, not_not] at h
    simp [h]

theorem sortedOutline_sorted (clean : List OutlineEntry) :
    (sortedOutline clean).Pairwise (fun a b => a.page ≤ b.page) := by
  haveI : IsTotal OutlineEntry (fun a b => pageCompare a b ≤ 0) :=
    ⟨fun a b => by
      simp only [pageCompare_nonpos_iff]
      exact Nat.le_total a.page b.page⟩
  haveI : IsTrans OutlineEntry (fun a b => pageCompare a b ≤ 0) :=
    ⟨fun a b c => by
      simp only [pageCompare_nonpos_iff]
      exact Nat.le_trans⟩
  have h := List.sorted_insertionSort (fun a b : OutlineEntry => pageCompare a b ≤ 0) clean
  exact List.Pairwise.imp (fun {a b} hab => (pageCompare_nonpos_iff a b).mp hab) h

theorem sortedOutline_perm (clean : List OutlineEntry) : (sortedOutline clean).Perm clean :=
  jsSort_perm _ clean

/-! ## The fixed results -/

theorem assemble_title (st : ClassifyState) :
    (assemble st).title = if st.title.isEmpty then placeholderTitle else st.title := rfl

theorem assemble_outline (st : ClassifyState) :
    (assemble st).outline =
      if cleanOutline st.outline = [] then fallbackOutline
      else sortedOutline (cleanOutline st.outline) := by
  unfold assemble
  simp only
  by_cases h : cleanOutline st.outline = []
  · simp [h, sortedOutline, jsSort]
  · have h2 : sortedOutline (cleanOutline st.outline) ≠ [] := by
      intro h3
      have := (sortedOutline_perm (cleanOutline st.outline)).length_eq
      rw [h3] at this
      exact h (List.length_eq_zero.mp this.symm)
    simp [h, h2]

/-! ## The histogram -/

theorem FontSizeMap.add_ne_nil (m : FontSizeMap) (size : Int) (n : Nat) :
    FontSizeMap.add m size n ≠ [] := by
  cases m with
  | nil => simp [FontSizeMap.add]
  | cons p m =>
    obtain ⟨k, v⟩ := p
    unfold FontSizeMap.add
    split_ifs <;> simp

theorem fontSizeMap_foldl_ne_nil (items : List TextItem) (m : FontSizeMap)
    (h : m ≠ [] ∨ items ≠ []) :
    items.foldl (fun m item => FontSizeMap.add m item.fontSize item.text.length) m ≠ [] := by
  induction items generalizing m with
  | nil => simpa using h
  | cons item rest ih =>
    simp only [List.foldl_cons]
    exact ih _ (Or.inl (FontSizeMap.add_ne_nil _ _ _))

theorem fontSizeMap_ne_nil (items : List TextItem) (h : items ≠ []) : fontSizeMap items ≠ [] :=
  fontSizeMap_foldl_ne_nil items [] (Or.inr h)

theorem objectKeys_perm (m : FontSizeMap) : (objectKeys m).Perm (m.map Prod.fst) := by
  unfold objectKeys
  refine List.Perm.trans (List.Perm.append_right _ (List.perm_insertionSort _ _)) ?_
  exact List.filter_append_perm _ _

theorem sortedSizes_perm (m : FontSizeMap) :
    (sortedSizes m).Perm ((m.map Prod.fst).map parseKey) :=
  (jsSort_perm _ _).trans ((objectKeys_perm m).map parseKey)

theorem sortedSizes_perm_of_readable (m : FontSizeMap)
    (hparse : ∀ s ∈ m.map Prod.fst, parseKey s = s) :
    (sortedSizes m).Perm (m.map Prod.fst) := by
  have h := sortedSizes_perm m
  rw [List.map_congr_left hparse, List.map_id'] at h
  exact h

theorem sortedSizes_ne_nil (m : FontSizeMap) (h : m ≠ []) : sortedSizes m ≠ [] := by
  intro h2
  have := (sortedSizes_perm m).length_eq
  rw [h2] at this
  simp only [List.length_nil, List.length_map] at this
  exact h (List.length_eq_zero.mp this.symm)

theorem hierarchy_isSome (items : List TextItem) (h : items ≠ []) :
    ∃ hy, hierarchy items = some hy := by
  unfold hierarchy
  have h2 := sortedSizes_ne_nil _ (fontSizeMap_ne_nil items h)
  cases hs : sortedSizes (fontSizeMap items) with
  | nil => exact absurd hs h2
  | cons s rest => simp [bodySize]

theorem analyse_eq (pages : List (List TextContentItem)) (h : allText pages ≠ []) :
    ∃ hy, hierarchy (allText pages) = some hy ∧
      analyse pages = assemble (classify hy (allText pages)) := by
  obtain ⟨hy, hhy⟩ := hierarchy_isSome _ h
  refine ⟨hy, hhy, ?_⟩
  unfold analyse
  have : (allText pages).length ≠ 0 := fun h0 => h (List.length_eq_zero.mp h0)
  simp [this, hhy]

theorem analyse_cases (pages : List (List TextContentItem)) :
    analyse pages = noTextResult ∨
      ∃ st : ClassifyState, analyse pages = assemble st := by
  by_cases h : allText pages = []
  · left
    unfold analyse
    simp [h]
  · right
    obtain ⟨hy, _, h2⟩ := analyse_eq pages h
    exact ⟨_, h2⟩

theorem extractOutline_cases (useDummy : Bool) (load : Load) :
    (∃ message, extractOutline useDummy load = errorResult message) ∨
      extractOutline useDummy load = dummyResult ∨
      extractOutline useDummy load = noTextResult ∨
      ∃ st : ClassifyState, extractOutline useDummy load = assemble st := by
  cases load with
  | failed message => exact Or.inl ⟨message, rfl⟩
  | loaded pages =>
    simp only [extractOutline]
    split_ifs with h
    · exact Or.inr (Or.inl rfl)
    · rcases analyse_cases pages with h2 | h2
      · exact Or.inr (Or.inr (Or.inl h2))
      · exact Or.inr (Or.inr (Or.inr h2))

/-- C1: for every input (a failed load, dummy data, a document without text, a document on
which no line is a heading, or any other document) the returned title is a non-empty string
and the returned outline has at least one entry. -/
theorem extractOutline_title_outline_nonempty (useDummy : Bool) (load : Load) :
    (extractOutline useDummy load).title ≠ [] ∧
      1 ≤ (extractOutline useDummy load).outline.length := by
  rcases extractOutline_cases useDummy load with ⟨message, h⟩ | h | h | ⟨st, h⟩
  · rw [h]; exact ⟨by simp [errorResult], by simp [errorResult]⟩
  · rw [h]; exact ⟨by decide, by decide⟩
  · rw [h]; exact ⟨by decide, by decide⟩
  · rw [h, assemble_title, assemble_outline]
    constructor
    · cases ht : st.title with
      | nil => simp [placeholderTitle]
      | cons c t => simp
    · split_ifs with hc
      · decide
      · have := (sortedOutline_perm (cleanOutline st.outline)).length_eq
        rw [this]
        exact Nat.pos_of_ne_zero (fun h0 => hc (List.length_eq_zero.mp h0))

/-- C5: for every input the returned outline is ordered by non-decreasing page number: every
entry's page is at most the page of the entry that follows it, the fixed outlines
included. -/
theorem extractOutline_pages_monotone (useDummy : Bool) (load : Load) :
    List.Chain' (fun a b : OutlineEntry => a.page ≤ b.page)
      (extractOutline useDummy load).outline := by
  rcases extractOutline_cases useDummy load with ⟨message, h⟩ | h | h | ⟨st, h⟩
  · rw [h]; exact List.Pairwise.chain' (by simp [errorResult])
  · rw [h]; exact List.Pairwise.chain' (by decide)
  · rw [h]; exact List.Pairwise.chain' (by decide)
  · rw [h, assemble_outline]
    split_ifs with hc
    · exact List.Pairwise.chain' (by decide)
    · exact List.Pairwise.chain' (sortedOutline_sorted _)

/-! ## Body size -/

theorem FontSizeMap.count_add (m : FontSizeMap) (k : Int) (n : Nat) (size : Int) :
    FontSizeMap.count (FontSizeMap.add m k n) size =
      FontSizeMap.count m size + (if k = size then n else 0) := by
  induction m with
  | nil => simp [FontSizeMap.add, FontSizeMap.count]
  | cons p m ih =>
    obtain ⟨k2, v⟩ := p
    unfold FontSizeMap.add
    by_cases h1 : k2 = k
    · subst h1
      rw [if_pos rfl]
      by_cases h2 : k2 = size
      · simp [FontSizeMap.count, h2]
      · simp [FontSizeMap.count, h2]
    · rw [if_neg h1]
      by_cases h2 : k2 = size
      · have h3 : ¬ k = size := fun h => h1 (h2.trans h.symm)
        simp [FontSizeMap.count, h2, h3]
      · simp [FontSizeMap.count, h2, ih]

theorem fontSizeMap_foldl_count (items : List TextItem) (m : FontSizeMap) (size : Int) :
    FontSizeMap.count
        (items.foldl (fun m item => FontSizeMap.add m item.fontSize item.text.length) m) size =
      FontSizeMap.count m size +
        ((items.filter (fun item => decide (item.fontSize = size))).map
          (fun item => item.text.length)).sum := by
  induction items generalizing m with
  | nil => simp
  | cons item rest ih =>
    simp only [List.foldl_cons]
    rw [ih, FontSizeMap.count_add]
    by_cases h : item.fontSize = size
    · simp [List.filter_cons, h, Nat.add_assoc]
    · simp [List.filter_cons, h]

theorem fontSizeMap_count (items : List TextItem) (size : Int) :
    FontSizeMap.count (fontSizeMap items) size =
      ((items.filter (fun item => decide (item.fontSize = size))).map
        (fun item => item.text.length)).sum := by
  unfold fontSizeMap
  rw [fontSizeMap_foldl_count]
  simp [FontSizeMap.count]

theorem FontSizeMap.count_eq_zero_of_not_mem (m : FontSizeMap) (size : Int)
    (h : size ∉ m.map Prod.fst) : FontSizeMap.count m size = 0 := by
  induction m with
  | nil => rfl
  | cons p m ih =>
    obtain ⟨k, v⟩ := p
    simp only [List.map_cons, List.mem_cons, not_or] at h
    have h1 : ¬ k = size := fun e => h.1 e.symm
    simp [FontSizeMap.count, h1, ih h.2]

theorem FontSizeMap.lookup_of_mem (m : FontSizeMap) (size : Int)
    (h : size ∈ m.map Prod.fst) : m.lookup size = some (m.count size) := by
  induction m with
  | nil => simp at h
  | cons p m ih =>
    obtain ⟨k, v⟩ := p
    by_cases hk : k = size
    · simp [FontSizeMap.lookup, FontSizeMap.count, hk]
    · simp only [List.map_cons, List.mem_cons] at h
      rcases h with e | e
      · exact absurd e.symm hk
      · simp [FontSizeMap.lookup, FontSizeMap.count, hk, ih e]

theorem countGreater_of_lookup (m : FontSizeMap) (curr prev : Int)
    (hc : m.lookup curr = some (m.count curr)) (hp : m.lookup prev = some (m.count prev)) :
    countGreater m curr prev = decide (m.count curr > m.count prev) := by
  unfold countGreater
  rw [hc, hp]

theorem reduce_mem (m : FontSizeMap) (rest : List Int) (s : Int) :
    (rest.foldl (fun prev curr => if countGreater m curr prev then curr else prev) s)
      ∈ s :: rest := by
  induction rest generalizing s with
  | nil => simp
  | cons c rest ih =>
    simp only [List.foldl_cons]
    split_ifs
    · exact List.mem_cons_of_mem _ (ih c)
    · rcases List.mem_cons.mp (ih s) with e | e
      · rw [e]; simp
      · exact List.mem_cons_of_mem _ (List.mem_cons_of_mem _ e)

theorem reduce_max (m : FontSizeMap) (rest : List Int) (s : Int)
    (hl : ∀ x ∈ s :: rest, m.lookup x = some (m.count x)) :
    ∀ x ∈ s :: rest,
      m.count x ≤ m.count
        (rest.foldl (fun prev curr => if countGreater m curr prev then curr else prev) s) := by
  induction rest generalizing s with
  | nil => simp
  | cons c rest ih =>
    simp only [List.foldl_cons]
    have hs := hl s (List.mem_cons_self _ _)
    have hc := hl c (List.mem_cons_of_mem _ (List.mem_cons_self _ _))
    rw [countGreater_of_lookup m c s hc hs]
    by_cases h : m.count c > m.count s
    · simp only [h, decide_True, if_true]
      have h2 := ih c (fun x hx => hl x (List.mem_cons_of_mem _ hx))
      intro x hx
      rcases List.mem_cons.mp hx with e | e
      · rw [e]
        exact Nat.le_trans (Nat.le_of_lt h) (h2 c (List.mem_cons_self _ _))
      · exact h2 x e
    · simp only [h, decide_False, Bool.false_eq_true, if_false]
      have h2 := ih s (fun x hx => by
        rcases List.mem_cons.mp hx with e | e
        · rw [e]; exact hs
        · exact hl x (List.mem_cons_of_mem _ (List.mem_cons_of_mem _ e)))
      intro x hx
      rcases List.mem_cons.mp hx with e | e
      · rw [e]; exact h2 s (List.mem_cons_self _ _)
      · rcases List.mem_cons.mp e with e2 | e2
        · rw [e2]
          exact Nat.le_trans (Nat.le_of_not_gt h) (h2 s (List.mem_cons_self _ _))
        · exact h2 x (List.mem_cons_of_mem _ e2)

theorem bodySize_spec (m : FontSizeMap) (sorted : List Int) (body : Int)
    (h : bodySize m sorted = some body) : body ∈ sorted := by
  cases sorted with
  | nil => simp [bodySize] at h
  | cons s rest =>
    simp only [bodySize, Option.some.injEq] at h
    rw [← h]
    exact reduce_mem m rest s

theorem bodySize_max (m : FontSizeMap) (sorted : List Int) (body : Int)
    (h : bodySize m sorted = some body)
    (hl : ∀ x ∈ sorted, m.lookup x = some (m.count x)) :
    ∀ x ∈ sorted, m.count x ≤ m.count body := by
  cases sorted with
  | nil => simp [bodySize] at h
  | cons s rest =>
    simp only [bodySize, Option.some.injEq] at h
    rw [← h]
    exact reduce_max m rest s hl

theorem collectPages_text (pages : List (List TextContentItem)) (n : Nat) (item : TextItem)
    (h : item ∈ collectPages n pages) :
    ∃ content ∈ pages, ∃ raw ∈ content, item.text = trim raw.str ∧ 2 ≤ item.text.length := by
  induction pages generalizing n with
  | nil => simp [collectPages] at h
  | cons content rest ih =>
    simp only [collectPages, List.mem_append, List.mem_filterMap] at h
    rcases h with ⟨raw, hraw, hc⟩ | h
    · refine ⟨content, List.mem_cons_self _ _, raw, hraw, ?_⟩
      unfold collectItem at hc
      simp only at hc
      split_ifs at hc with hskip
      simp only [Option.some.injEq] at hc
      rw [← hc]
      simp only [Bool.or_eq_true, decide_eq_true_eq, not_or, not_lt] at hskip
      exact ⟨rfl, hskip.2⟩
    · obtain ⟨c, hc, r⟩ := ih (n + 1) h
      exact ⟨c, List.mem_cons_of_mem _ hc, r⟩

/-- When every size of the histogram reads back from its key (its magnitude is below
`10^21`), the body size of a document with at least one surviving run is a size of the
histogram whose character count is the maximum over all the sizes.  The count of a size is
the sum of the text lengths of the surviving runs of that size, and the text of a surviving
run is the trimmed text of a run of the document, of length at least 2. -/
theorem bodySize_max_of_readable (pages : List (List TextContentItem))
    (h : allText pages ≠ [])
    (hparse : ∀ s ∈ (fontSizeMap (allText pages)).map Prod.fst, parseKey s = s) :
    ∃ body,
      bodySize (fontSizeMap (allText pages)) (sortedSizes (fontSizeMap (allText pages)))
          = some body ∧
        body ∈ (fontSizeMap (allText pages)).map Prod.fst ∧
        (∀ size : Int,
          (fontSizeMap (allText pages)).count size ≤ (fontSizeMap (allText pages)).count body) ∧
        (∀ size : Int,
          (fontSizeMap (allText pages)).count size =
            (((allText pages).filter (fun item => decide (item.fontSize = size))).map
              (fun item => item.text.length)).sum) ∧
        ∀ item ∈ allText pages,
          ∃ content ∈ pages, ∃ raw ∈ content,
            item.text = trim raw.str ∧ 2 ≤ item.text.length := by
  have hne := sortedSizes_ne_nil _ (fontSizeMap_ne_nil _ h)
  have hperm := sortedSizes_perm_of_readable _ hparse
  cases hb : bodySize (fontSizeMap (allText pages)) (sortedSizes (fontSizeMap (allText pages)))
    with
  | none =>
    cases hs : sortedSizes (fontSizeMap (allText pages)) with
    | nil => exact absurd hs hne
    | cons s rest => rw [hs] at hb; simp [bodySize] at hb
  | some body =>
    have h1 := bodySize_spec _ _ _ hb
    have h2 := bodySize_max _ _ _ hb (fun x hx =>
      FontSizeMap.lookup_of_mem _ x (hperm.mem_iff.mp hx))
    refine ⟨body, rfl, hperm.mem_iff.mp h1, ?_, ?_, ?_⟩
    · intro size
      by_cases hm : size ∈ (fontSizeMap (allText pages)).map Prod.fst
      · exact h2 size (hperm.mem_iff.mpr hm)
      · rw [FontSizeMap.count_eq_zero_of_not_mem _ _ hm]
        exact Nat.zero_le _
    · intro size
      exact fontSizeMap_count _ size
    · intro item hitem
      exact collectPages_text pages 1 item hitem

/-- C7 (the failing input): on the page with the single run "Title line" of scale `1e21`
the histogram has the one size `10^21`, with count 10; its key `1e+21` is read back by
`parseInt` as 1, so that `sortedSizes` is `[1]` and the body size is 1, a number that is
not a size of the histogram and has no count, let alone the maximal one. -/
theorem bodySize_of_huge_size :
    fontSizeMap (allText hugeSizeDocument) = [(10 ^ 21, 10)] ∧
      sortedSizes (fontSizeMap (allText hugeSizeDocument)) = [1] ∧
      bodySize (fontSizeMap (allText hugeSizeDocument))
          (sortedSizes (fontSizeMap (allText hugeSizeDocument))) = some 1 ∧
      (1 : Int) ∉ (fontSizeMap (allText hugeSizeDocument)).map Prod.fst ∧
      (fontSizeMap (allText hugeSizeDocument)).lookup 1 = none ∧
      (fontSizeMap (allText hugeSizeDocument)).count 1
        < (fontSizeMap (allText hugeSizeDocument)).count (10 ^ 21) := by
  decide!

/-! ## Heading sizes -/

/-- The key that the size sort ranks by, descending, for two numbers that have a count:
`size - 0.05 * count`. -/
theorem sizeCompare_eq (m : FontSizeMap) (a b : Int)
    (ha : m.lookup a = some (m.count a)) (hb : m.lookup b = some (m.count b)) :
    sizeCompare m a b =
      ((b : ℚ) - (m.count b : ℚ) * (5 / 100)) - ((a : ℚ) - (m.count a : ℚ) * (5 / 100)) := by
  unfold sizeCompare
  rw [ha, hb]
  push_cast
  ring

theorem orderedInsert_congr {α : Type} (r s : α → α → Prop) [DecidableRel r] [DecidableRel s]
    (a : α) (l : List α) (h : ∀ b ∈ l, r a b ↔ s a b) :
    l.orderedInsert r a = l.orderedInsert s a := by
  induction l with
  | nil => rfl
  | cons b l ih =>
    have hb := h b (List.mem_cons_self _ _)
    have ih2 := ih (fun c hc => h c (List.mem_cons_of_mem _ hc))
    by_cases hr : r a b
    · have hs := hb.mp hr
      simp [List.orderedInsert, hr, hs]
    · have hs : ¬ s a b := fun e => hr (hb.mpr e)
      simp [List.orderedInsert, hr, hs, ih2]

theorem insertionSort_congr {α : Type} (r s : α → α → Prop) [DecidableRel r] [DecidableRel s]
    (l : List α) (h : ∀ a ∈ l, ∀ b ∈ l, r a b ↔ s a b) :
    l.insertionSort r = l.insertionSort s := by
  induction l with
  | nil => rfl
  | cons a l ih =>
    have ih2 := ih (fun x hx y hy => h x (List.mem_cons_of_mem _ hx) y (List.mem_cons_of_mem _ hy))
    simp only [List.insertionSort]
    rw [ih2]
    apply orderedInsert_congr
    intro b hb
    have hb2 : b ∈ l := (List.perm_insertionSort s l).mem_iff.mp hb
    exact h a (List.mem_cons_self _ _) b (List.mem_cons_of_mem _ hb2)

theorem sortedSizes_sorted (m : FontSizeMap)
    (hparse : ∀ s ∈ m.map Prod.fst, parseKey s = s) :
    (sortedSizes m).Pairwise (fun a b => sizeCompare m a b ≤ 0) := by
  haveI : IsTotal Int (fun a b : Int =>
      ((b : ℚ) - (m.count b : ℚ) * (5 / 100)) - ((a : ℚ) - (m.count a : ℚ) * (5 / 100)) ≤ 0) :=
    ⟨fun a b => by
      simp only [sub_nonpos]
      exact le_total _ _⟩
  haveI : IsTrans Int (fun a b : Int =>
      ((b : ℚ) - (m.count b : ℚ) * (5 / 100)) - ((a : ℚ) - (m.count a : ℚ) * (5 / 100)) ≤ 0) :=
    ⟨fun a b c => by
      simp only [sub_nonpos]
      exact fun h1 h2 => le_trans h2 h1⟩
  have hkeys : ∀ a ∈ objectKeys m, m.lookup a = some (m.count a) := fun a ha =>
    FontSizeMap.lookup_of_mem m a ((objectKeys_perm m).mem_iff.mp ha)
  have hmap : (objectKeys m).map parseKey = objectKeys m := by
    rw [List.map_congr_left (fun a ha => hparse a ((objectKeys_perm m).mem_iff.mp ha)),
      List.map_id']
  have heq : sortedSizes m = (objectKeys m).insertionSort (fun a b : Int =>
      ((b : ℚ) - (m.count b : ℚ) * (5 / 100)) - ((a : ℚ) - (m.count a : ℚ) * (5 / 100)) ≤ 0) := by
    unfold sortedSizes jsSort
    rw [hmap]
    apply insertionSort_congr
    intro a ha b hb
    rw [sizeCompare_eq m a b (hkeys a ha) (hkeys b hb)]
  have hs := List.sorted_insertionSort (fun a b : Int =>
      ((b : ℚ) - (m.count b : ℚ) * (5 / 100)) - ((a : ℚ) - (m.count a : ℚ) * (5 / 100)) ≤ 0)
      (objectKeys m)
  rw [heq]
  refine List.Pairwise.imp_of_mem ?_ hs
  intro a b ha hb hab
  have ha2 : a ∈ objectKeys m := (List.perm_insertionSort _ _).mem_iff.mp ha
  have hb2 : b ∈ objectKeys m := (List.perm_insertionSort _ _).mem_iff.mp hb
  rw [sizeCompare_eq m a b (hkeys a ha2) (hkeys b hb2)]
  exact hab

theorem FontSizeMap.add_keys (m : FontSizeMap) (k : Int) (n : Nat) :
    (FontSizeMap.add m k n).map Prod.fst =
      if k ∈ m.map Prod.fst then m.map Prod.fst else m.map Prod.fst ++ [k] := by
  induction m with
  | nil => simp [FontSizeMap.add]
  | cons p m ih =>
    obtain ⟨k2, v⟩ := p
    unfold FontSizeMap.add
    by_cases h1 : k2 = k
    · subst h1
      simp
    · rw [if_neg h1]
      have h2 : ¬ k = k2 := fun e => h1 e.symm
      simp only [List.map_cons, ih, List.mem_cons, h2, false_or]
      split_ifs <;> simp

theorem fontSizeMap_foldl_nodup (items : List TextItem) (m : FontSizeMap)
    (h : (m.map Prod.fst).Nodup) :
    ((items.foldl (fun m item => FontSizeMap.add m item.fontSize item.text.length) m).map
      Prod.fst).Nodup := by
  induction items generalizing m with
  | nil => simpa using h
  | cons item rest ih =>
    simp only [List.foldl_cons]
    apply ih
    rw [FontSizeMap.add_keys]
    split_ifs with hm
    · exact h
    · exact List.Nodup.append h (List.nodup_singleton _) (by simpa using hm)

theorem fontSizeMap_nodup (items : List TextItem) : ((fontSizeMap items).map Prod.fst).Nodup :=
  fontSizeMap_foldl_nodup items [] (by simp)

theorem headingSizes_sublist (sorted : List Int) (body : Int) :
    (headingSizes sorted body).Sublist sorted :=
  (List.take_sublist _ _).trans (List.filter_sublist _)

theorem headingSizes_gt (sorted : List Int) (body : Int) :
    ∀ s ∈ headingSizes sorted body, s > body := by
  intro s hs
  have := List.mem_of_mem_take hs
  simpa using (List.mem_filter.mp this).2

theorem hierarchy_eq (items : List TextItem) (h : Hierarchy) (hh : hierarchy items = some h) :
    bodySize (fontSizeMap items) (sortedSizes (fontSizeMap items)) = some h.bodySize ∧
      h = hierarchyOf (headingSizes (sortedSizes (fontSizeMap items)) h.bodySize) h.bodySize := by
  unfold hierarchy at hh
  cases hb : bodySize (fontSizeMap items) (sortedSizes (fontSizeMap items)) with
  | none => rw [hb] at hh; simp at hh
  | some body =>
    rw [hb] at hh
    simp only [Option.some.injEq] at hh
    subst hh
    exact ⟨rfl, rfl⟩

/-- C3 (counterexample): on a page whose size 14 carries 50 characters and whose size 12
carries 2 characters, over a body of size 10, the size sort puts 12 before 14: `H1Size` is 12
and `H2Size` is 14, so the defined heading sizes are not in descending order. -/
theorem headingSizes_not_descending :
    ∃ h a b, hierarchy (allText frequentLargeSizeDocument) = some h ∧
      h.H1Size = some a ∧ h.H2Size = some b ∧ a = 12 ∧ b = 14 ∧ ¬ (a > b) :=
  ⟨{ H1Size := some 12, H2Size := some 14, H3Size := none, H4Size := none, bodySize := 10 },
    12, 14, by decide!, rfl, rfl, rfl, rfl, by decide⟩

/-- C3 (amended): for a histogram whose sizes read back from their keys (magnitude below
`10^21`), the heading sizes are the first four sizes greater than the body size in
the order of the size sort, which ranks the sizes by the comparator
`sizeWeight + freqWeight` (descending `size - 0.05 * count`), each of them greater than the
body size; they are ranked by strictly descending size (H1Size > H2Size > H3Size > H4Size)
whenever, for any two sizes `s < t` above the body size, the count of `t` exceeds the count
of `s` by less than `20 * (t - s)`. -/
theorem headingSizes_descending (pages : List (List TextContentItem)) (h : Hierarchy)
    (hh : hierarchy (allText pages) = some h)
    (hparse : ∀ s ∈ (fontSizeMap (allText pages)).map Prod.fst, parseKey s = s)
    (hfreq : ∀ s ∈ (fontSizeMap (allText pages)).map Prod.fst,
      ∀ t ∈ (fontSizeMap (allText pages)).map Prod.fst,
        h.bodySize < s → s < t →
          ((fontSizeMap (allText pages)).count t : Int)
            < ((fontSizeMap (allText pages)).count s : Int) + 20 * (t - s)) :
    h = hierarchyOf
          (headingSizes (sortedSizes (fontSizeMap (allText pages))) h.bodySize) h.bodySize ∧
      (headingSizes (sortedSizes (fontSizeMap (allText pages))) h.bodySize).Pairwise
        (fun a b => sizeCompare (fontSizeMap (allText pages)) a b ≤ 0) ∧
      (∀ s ∈ headingSizes (sortedSizes (fontSizeMap (allText pages))) h.bodySize,
        s > h.bodySize) ∧
      (headingSizes (sortedSizes (fontSizeMap (allText pages))) h.bodySize).Pairwise
        (fun a b => a > b) := by
  obtain ⟨_, h2⟩ := hierarchy_eq _ h hh
  have hsub := headingSizes_sublist (sortedSizes (fontSizeMap (allText pages))) h.bodySize
  have hperm := sortedSizes_perm_of_readable (fontSizeMap (allText pages)) hparse
  have hsorted :=
    List.Pairwise.sublist hsub (sortedSizes_sorted (fontSizeMap (allText pages)) hparse)
  have hnodup : (headingSizes (sortedSizes (fontSizeMap (allText pages))) h.bodySize).Nodup :=
    List.Nodup.sublist hsub (hperm.nodup_iff.mpr (fontSizeMap_nodup (allText pages)))
  have hgt := headingSizes_gt (sortedSizes (fontSizeMap (allText pages))) h.bodySize
  refine ⟨h2, hsorted, hgt, ?_⟩
  refine List.Pairwise.imp_of_mem ?_ (List.Pairwise.and hsorted hnodup)
  intro a b ha hb hab
  obtain ⟨hcmp, hne⟩ := hab
  by_contra hlt
  have hab2 : a < b := lt_of_le_of_ne (not_lt.mp hlt) hne
  have hka : a ∈ (fontSizeMap (allText pages)).map Prod.fst :=
    hperm.mem_iff.mp (hsub.subset ha)
  have hkb : b ∈ (fontSizeMap (allText pages)).map Prod.fst :=
    hperm.mem_iff.mp (hsub.subset hb)
  have hf := hfreq a hka b hkb (hgt a ha) hab2
  have hq : (((fontSizeMap (allText pages)).count b : Int) : ℚ)
      < (((fontSizeMap (allText pages)).count a : Int) : ℚ) + 20 * ((b : ℚ) - (a : ℚ)) := by
    exact_mod_cast hf
  rw [sizeCompare_eq _ a b (FontSizeMap.lookup_of_mem _ a hka)
    (FontSizeMap.lookup_of_mem _ b hkb)] at hcmp
  push_cast at hq
  linarith

/-- C3 (amended), at a concrete document: sizes 14 and 12 with 10 characters each over a
body of size 10. -/
theorem headingSizes_descending_witness :
    hierarchy (allText plainSizesDocument) =
        some { H1Size := some 14, H2Size := some 12, H3Size := none, H4Size := none,
               bodySize := 10 } ∧
      (headingSizes (sortedSizes (fontSizeMap (allText plainSizesDocument))) 10).Pairwise
        (fun a b => a > b) :=
  ⟨by decide!,
    (headingSizes_descending plainSizesDocument
      { H1Size := some 14, H2Size := some 12, H3Size := none, H4Size := none, bodySize := 10 }
      (by decide!) (by decide!) (by decide!)).2.2.2⟩

/-! ## Size-based level -/

theorem sizeLevel_H1 (h : Hierarchy) (r n : Int) (h1 : h.H1Size = some n) (hn : n ≠ 0)
    (hr : r ≥ n) : sizeLevel h r = some Level.H1 := by
  unfold sizeLevel
  simp [h1, truthy, geSize, hn, hr]

theorem detectLevel_H1 (h : Hierarchy) (lineItems : List TextItem) (n : Int)
    (h1 : h.H1Size = some n) (hn : n ≠ 0) (hr : roundedSize lineItems ≥ n) :
    detectLevel h lineItems = some Level.H1 := by
  unfold detectLevel
  rw [sizeLevel_H1 h _ n h1 hn hr]

/-- C4 (the failing input): in the document of mirrored text the hierarchy has
H1Size = 0 > H2Size = -1 > H3Size = -2, the line "hello world" has rounded size 0, which is
at least H1Size, and yet the size-based step gives it no level (`H1Size &&` is false for 0),
the heuristic step gives it none either, and the line is not in the returned outline. -/
theorem detectLevel_zero_H1Size :
    hierarchy (allText zeroSizeDocument) =
        some { H1Size := some 0, H2Size := some (-1), H3Size := some (-2), H4Size := none,
               bodySize := -3 } ∧
      (lines (allText zeroSizeDocument)).head? =
        some [{ text := "hello world".toList, fontSize := 0, y := 700, page := 1, x := 0 }] ∧
      roundedSize [{ text := "hello world".toList, fontSize := 0, y := 700, page := 1, x := 0 }]
        = 0 ∧
      sizeLevel
          { H1Size := some 0, H2Size := some (-1), H3Size := some (-2), H4Size := none,
            bodySize := -3 } 0 = none ∧
      detectLevel
          { H1Size := some 0, H2Size := some (-1), H3Size := some (-2), H4Size := none,
            bodySize := -3 }
          [{ text := "hello world".toList, fontSize := 0, y := 700, page := 1, x := 0 }]
        = none ∧
      (extractOutline false (Load.loaded zeroSizeDocument)).outline =
        [ { level := Level.H2, text := "mirrored a".toList, page := 1 },
          { level := Level.H3, text := "mirrored b".toList, page := 1 } ] := by
  decide!

/-! ## Deduplicator -/

/-- The duplicate test on two entries: the earlier text is case-insensitively equal to the
later one, or contains it with a length difference under 10. -/
theorem similarTo_cleanItem (existing : OutlineEntry) (item : HeadingCandidate) :
    similarTo existing item = true ↔
      (toLowerCase existing.text = toLowerCase (cleanItem item).text ∨
        (includes (toLowerCase existing.text) (toLowerCase (cleanItem item).text) = true ∧
          Int.natAbs ((existing.text.length : Int) - ((cleanItem item).text.length : Int))
            < 10)) := by
  simp [similarTo, cleanItem]

theorem cleanStep_pairwise (clean : List OutlineEntry) (item : HeadingCandidate)
    (h : clean.Pairwise (fun earlier later =>
      ¬ (toLowerCase earlier.text = toLowerCase later.text ∨
        (includes (toLowerCase earlier.text) (toLowerCase later.text) = true ∧
          Int.natAbs ((earlier.text.length : Int) - (later.text.length : Int)) < 10)))) :
    (cleanStep clean item).Pairwise (fun earlier later =>
      ¬ (toLowerCase earlier.text = toLowerCase later.text ∨
        (includes (toLowerCase earlier.text) (toLowerCase later.text) = true ∧
          Int.natAbs ((earlier.text.length : Int) - (later.text.length : Int)) < 10))) := by
  unfold cleanStep
  split_ifs with hc
  · rw [List.pairwise_append]
    refine ⟨h, List.pairwise_singleton _ _, ?_⟩
    intro a ha b hb
    rw [List.mem_singleton] at hb
    subst hb
    simp only [Bool.and_eq_true, Bool.not_eq_true', decide_eq_true_eq] at hc
    have hdup := hc.1
    unfold isDuplicate at hdup
    rw [List.any_eq_false] at hdup
    have := hdup a ha
    rw [← similarTo_cleanItem]
    simpa using this
  · exact h

theorem cleanOutline_foldl_pairwise (items : List HeadingCandidate) (clean : List OutlineEntry)
    (h : clean.Pairwise (fun earlier later =>
      ¬ (toLowerCase earlier.text = toLowerCase later.text ∨
        (includes (toLowerCase earlier.text) (toLowerCase later.text) = true ∧
          Int.natAbs ((earlier.text.length : Int) - (later.text.length : Int)) < 10)))) :
    (items.foldl cleanStep clean).Pairwise (fun earlier later =>
      ¬ (toLowerCase earlier.text = toLowerCase later.text ∨
        (includes (toLowerCase earlier.text) (toLowerCase later.text) = true ∧
          Int.natAbs ((earlier.text.length : Int) - (later.text.length : Int)) < 10))) := by
  induction items generalizing clean with
  | nil => exact h
  | cons item rest ih => exact ih _ (cleanStep_pairwise clean item h)

theorem cleanOutline_pairwise (outline : List HeadingCandidate) :
    (cleanOutline outline).Pairwise (fun earlier later =>
      ¬ (toLowerCase earlier.text = toLowerCase later.text ∨
        (includes (toLowerCase earlier.text) (toLowerCase later.text) = true ∧
          Int.natAbs ((earlier.text.length : Int) - (later.text.length : Int)) < 10))) :=
  cleanOutline_foldl_pairwise outline [] List.Pairwise.nil

theorem pages_ne_nil (pages : List (List TextContentItem)) (h : allText pages ≠ []) :
    pages ≠ [] := by
  intro hp
  subst hp
  exact h rfl

theorem extractOutline_loaded (pages : List (List TextContentItem)) (h : allText pages ≠ []) :
    extractOutline false (Load.loaded pages) = analyse pages := by
  have hp := pages_ne_nil pages h
  have : pages.length ≠ 0 := fun h0 => hp (List.length_eq_zero.mp h0)
  simp [extractOutline, this]

theorem extractOutline_classified (pages : List (List TextContentItem))
    (h : allText pages ≠ []) :
    ∃ hy, hierarchy (allText pages) = some hy ∧
      extractOutline false (Load.loaded pages) = assemble (classify hy (allText pages)) := by
  obtain ⟨hy, h1, h2⟩ := analyse_eq pages h
  exact ⟨hy, h1, (extractOutline_loaded pages h).trans h2⟩

/-- C2 (counterexample): "Results" is discovered first and kept; "Results and" is
discovered after it and kept too, because the test only asks whether the kept text contains
the new one.  The returned outline then has the entry "Results", whose text is a
case-insensitive substring of the text of the entry "Results and", with lengths 7 and 11. -/
theorem dedup_keeps_contained_earlier :
    (extractOutline false (Load.loaded containedHeadingDocument)).outline =
        [ { level := Level.H1, text := "Results".toList, page := 1 },
          { level := Level.H1, text := "Results and".toList, page := 1 } ] ∧
      includes (toLowerCase "Results and".toList) (toLowerCase "Results".toList) = true ∧
      Int.natAbs ((("Results and".toList).length : Int) - (("Results".toList).length : Int))
        < 10 := by
  decide!

/-- C2 (amended): for every document with at least one surviving run (dummy data off), the
kept headings, in the order in which they were discovered, contain no entry whose text is a
case-insensitive substring of the text of an entry kept before it with a length difference
under 10; the test is made in this direction only.  The returned outline is the kept
headings sorted by page, or the fallback outline when nothing was kept. -/
theorem dedup_one_direction (pages : List (List TextContentItem)) (h : allText pages ≠ []) :
    ∃ hy, hierarchy (allText pages) = some hy ∧
      (cleanOutline (classify hy (allText pages)).outline).Pairwise
        (fun earlier later =>
          ¬ (includes (toLowerCase earlier.text) (toLowerCase later.text) = true ∧
            Int.natAbs ((earlier.text.length : Int) - (later.text.length : Int)) < 10)) ∧
      (extractOutline false (Load.loaded pages)).outline =
        (if cleanOutline (classify hy (allText pages)).outline = [] then fallbackOutline
         else sortedOutline (cleanOutline (classify hy (allText pages)).outline)) := by
  obtain ⟨hy, h1, h2⟩ := extractOutline_classified pages h
  refine ⟨hy, h1, ?_, ?_⟩
  · exact List.Pairwise.imp (fun hab hc => hab (Or.inr hc)) (cleanOutline_pairwise _)
  · rw [h2, assemble_outline]

/-- C2 (amended), at the document with the headings "Results" and "Results and". -/
theorem dedup_one_direction_witness :
    allText containedHeadingDocument ≠ [] ∧
      ∃ hy, hierarchy (allText containedHeadingDocument) = some hy ∧
        (cleanOutline (classify hy (allText containedHeadingDocument)).outline).Pairwise
          (fun earlier later =>
            ¬ (includes (toLowerCase earlier.text) (toLowerCase later.text) = true ∧
              Int.natAbs ((earlier.text.length : Int) - (later.text.length : Int)) < 10)) ∧
        (extractOutline false (Load.loaded containedHeadingDocument)).outline =
          (if cleanOutline (classify hy (allText containedHeadingDocument)).outline = [] then
            fallbackOutline
           else sortedOutline
            (cleanOutline (classify hy (allText containedHeadingDocument)).outline)) :=
  ⟨by decide!, dedup_one_direction containedHeadingDocument (by decide!)⟩

/-! ## The line loop -/

theorem processLine_skip (h : Hierarchy) (st : ClassifyState) (lineItems : List TextItem)
    (hs : skipLine st lineItems = true) : processLine h st lineItems = st := by
  unfold processLine
  simp [hs]

theorem length_ge_of_not_skip (st : ClassifyState) (lineItems : List TextItem)
    (hs : skipLine st lineItems = false) : (lineText lineItems).length ≥ 3 := by
  unfold skipLine at hs
  simp only [Bool.or_eq_false_iff, decide_eq_false_iff_not, not_lt] at hs
  exact hs.1.2

theorem not_seen_of_not_skip (st : ClassifyState) (lineItems : List TextItem)
    (hs : skipLine st lineItems = false) :
    toLowerCase (lineText lineItems) ∉ st.seenTexts := by
  unfold skipLine at hs
  simp only [Bool.or_eq_false_iff] at hs
  intro hm
  have := hs.2
  simp at this
  exact this hm

theorem processLine_push (h : Hierarchy) (st : ClassifyState) (lineItems : List TextItem)
    (level : Level) (hs : skipLine st lineItems = false)
    (hl : detectLevel h lineItems = some level) :
    (processLine h st lineItems).outline =
        st.outline ++
          [{ level := level, text := lineText lineItems, page := pageNum lineItems,
             fontSize := roundedSize lineItems }] ∧
      (processLine h st lineItems).seenTexts =
        st.seenTexts ++ [toLowerCase (lineText lineItems)] := by
  have hlen := length_ge_of_not_skip st lineItems hs
  unfold processLine
  simp [hs, hl, hlen]

theorem processLine_drop (h : Hierarchy) (st : ClassifyState) (lineItems : List TextItem)
    (hs : skipLine st lineItems = false) (hl : detectLevel h lineItems = none) :
    (processLine h st lineItems).outline = st.outline ∧
      (processLine h st lineItems).seenTexts = st.seenTexts := by
  unfold processLine
  simp [hs, hl]

theorem processLine_title (h : Hierarchy) (st : ClassifyState) (lineItems : List TextItem)
    (hs : skipLine st lineItems = false) :
    (processLine h st lineItems).title = detectTitle h st.title lineItems := by
  unfold processLine
  simp only [hs, Bool.false_eq_true, if_false]
  cases detectLevel h lineItems with
  | none => rfl
  | some level => split_ifs <;> rfl

theorem isHeadingLine_of_not_skip (h : Hierarchy) (st : ClassifyState)
    (lineItems : List TextItem) (hs : skipLine st lineItems = false) :
    isHeadingLine h lineItems = (detectLevel h lineItems).isSome := by
  unfold skipLine at hs
  simp only [Bool.or_eq_false_iff] at hs
  unfold isHeadingLine
  simp [hs.1.1, hs.1.2]

theorem seen_of_skip_heading (h : Hierarchy) (st : ClassifyState) (lineItems : List TextItem)
    (hs : skipLine st lineItems = true) (hh : isHeadingLine h lineItems = true) :
    toLowerCase (lineText lineItems) ∈ st.seenTexts := by
  unfold isHeadingLine at hh
  unfold skipLine at hs
  simp only [Bool.and_eq_true, Bool.not_eq_true', Bool.or_eq_false_iff] at hh
  simp only [hh.1.1, hh.1.2, Bool.or_self, Bool.false_or] at hs
  simpa using hs

theorem loopInvariant_step (h : Hierarchy) (st : ClassifyState)
    (processed : List (List TextItem)) (lineItems : List TextItem)
    (inv : LoopInvariant h st processed) :
    LoopInvariant h (processLine h st lineItems) (processed ++ [lineItems]) := by
  obtain ⟨ha, hb⟩ := inv
  have hold : ∀ c ∈ st.outline, ∃ pre l post,
      processed ++ [lineItems] = pre ++ l :: post ∧
        c.text = lineText l ∧ c.page = pageNum l ∧ detectLevel h l = some c.level ∧
        isHeadingLine h l = true ∧
        ∀ earlier ∈ pre, isHeadingLine h earlier = true →
          toLowerCase (lineText earlier) ≠ toLowerCase (lineText l) := by
    intro c hc
    obtain ⟨pre, l, post, e, r⟩ := ha c hc
    exact ⟨pre, l, post ++ [lineItems], by rw [e]; simp, r⟩
  cases hs : skipLine st lineItems with
  | true =>
    rw [processLine_skip h st lineItems hs]
    refine ⟨hold, ?_⟩
    intro earlier he hh
    rcases List.mem_append.mp he with he | he
    · exact hb earlier he hh
    · rw [List.mem_singleton] at he
      subst he
      exact seen_of_skip_heading h st earlier hs hh
  | false =>
    cases hl : detectLevel h lineItems with
    | none =>
      obtain ⟨ho, hseen⟩ := processLine_drop h st lineItems hs hl
      refine ⟨?_, ?_⟩
      · rw [ho]; exact hold
      · rw [hseen]
        intro earlier he hh
        rcases List.mem_append.mp he with he | he
        · exact hb earlier he hh
        · rw [List.mem_singleton] at he
          subst he
          rw [isHeadingLine_of_not_skip h st earlier hs, hl] at hh
          simp at hh
    | some level =>
      obtain ⟨ho, hseen⟩ := processLine_push h st lineItems level hs hl
      refine ⟨?_, ?_⟩
      · rw [ho]
        intro c hc
        rcases List.mem_append.mp hc with hc | hc
        · exact hold c hc
        · rw [List.mem_singleton] at hc
          subst hc
          refine ⟨processed, lineItems, [], rfl, rfl, rfl, hl, ?_, ?_⟩
          · rw [isHeadingLine_of_not_skip h st lineItems hs, hl]; rfl
          · intro earlier he hh heq
            have := hb earlier he hh
            rw [heq] at this
            exact not_seen_of_not_skip st lineItems hs this
      · rw [hseen]
        intro earlier he hh
        rcases List.mem_append.mp he with he | he
        · exact List.mem_append_left _ (hb earlier he hh)
        · rw [List.mem_singleton] at he
          subst he
          exact List.mem_append_right _ (List.mem_singleton_self _)

theorem loopInvariant_fold (h : Hierarchy) (ls : List (List TextItem)) (st : ClassifyState)
    (processed : List (List TextItem)) (inv : LoopInvariant h st processed) :
    LoopInvariant h (processLines h st ls) (processed ++ ls) := by
  induction ls generalizing st processed with
  | nil => simpa [processLines] using inv
  | cons l rest ih =>
    have := ih (processLine h st l) (processed ++ [l]) (loopInvariant_step h st processed l inv)
    simpa [processLines] using this

theorem loopInvariant_classify (h : Hierarchy) (items : List TextItem) :
    LoopInvariant h (classify h items) (lines items) := by
  have := loopInvariant_fold h (lines items) ClassifyState.init []
    ⟨by simp [ClassifyState.init], by simp⟩
  simpa [classify] using this

/-! ## Case-insensitive duplicates -/

theorem cleanOutline_foldl_mem (items : List HeadingCandidate) (clean : List OutlineEntry)
    (e : OutlineEntry) (he : e ∈ items.foldl cleanStep clean) :
    e ∈ clean ∨ ∃ c ∈ items, e = cleanItem c := by
  induction items generalizing clean with
  | nil => exact Or.inl he
  | cons item rest ih =>
    simp only [List.foldl_cons] at he
    rcases ih _ he with h1 | ⟨c, hc, h2⟩
    · unfold cleanStep at h1
      split_ifs at h1
      · rcases List.mem_append.mp h1 with h3 | h3
        · exact Or.inl h3
        · rw [List.mem_singleton] at h3
          exact Or.inr ⟨item, List.mem_cons_self _ _, h3⟩
      · exact Or.inl h1
    · exact Or.inr ⟨c, List.mem_cons_of_mem _ hc, h2⟩

theorem cleanOutline_mem (outline : List HeadingCandidate) (e : OutlineEntry)
    (he : e ∈ cleanOutline outline) : ∃ c ∈ outline, e = cleanItem c := by
  rcases cleanOutline_foldl_mem outline [] e he with h | h
  · simp at h
  · exact h

theorem hierarchy_some_ne_nil (items : List TextItem) (hy : Hierarchy)
    (h : hierarchy items = some hy) : items ≠ [] := by
  intro hi
  subst hi
  simp [hierarchy, fontSizeMap, sortedSizes, objectKeys, jsSort, bodySize] at h

theorem extractOutline_of_hierarchy (pages : List (List TextContentItem)) (hy : Hierarchy)
    (h : hierarchy (allText pages) = some hy) :
    extractOutline false (Load.loaded pages) = assemble (classify hy (allText pages)) := by
  obtain ⟨hy2, h1, h2⟩ := extractOutline_classified pages (hierarchy_some_ne_nil _ hy h)
  rw [h] at h1
  simp only [Option.some.injEq] at h1
  rw [h2, h1]

/-- C6: for every input, no two entries of the returned outline have texts that are equal
ignoring case.  And on every document whose outline is built from its lines, the text of
every outline entry is the text of a line that is classified as a heading and that no
earlier heading line equals ignoring case: of the heading lines whose texts differ only in
case, only the text of the first one met can appear in the outline. -/
theorem outline_texts_distinct_ignoring_case :
    (∀ (useDummy : Bool) (load : Load),
      (extractOutline useDummy load).outline.Pairwise
        (fun a b => toLowerCase a.text ≠ toLowerCase b.text)) ∧
    (∀ (pages : List (List TextContentItem)) (hy : Hierarchy),
      hierarchy (allText pages) = some hy →
      cleanOutline (classify hy (allText pages)).outline ≠ [] →
      ∀ e ∈ (extractOutline false (Load.loaded pages)).outline,
        ∃ pre lineItems post,
          lines (allText pages) = pre ++ lineItems :: post ∧
            e.text = lineText lineItems ∧
            isHeadingLine hy lineItems = true ∧
            ∀ earlier ∈ pre, isHeadingLine hy earlier = true →
              toLowerCase (lineText earlier) ≠ toLowerCase (lineText lineItems)) := by
  constructor
  · intro useDummy load
    rcases extractOutline_cases useDummy load with ⟨message, h⟩ | h | h | ⟨st, h⟩
    · rw [h]
      have : (errorResult message).outline = (errorResult []).outline := rfl
      rw [this]
      decide
    · rw [h]; decide
    · rw [h]; decide
    · rw [h, assemble_outline]
      split_ifs with hc
      · decide
      · rw [(sortedOutline_perm _).pairwise_iff (fun {a b} hab e => hab e.symm)]
        exact List.Pairwise.imp (fun hab e => hab (Or.inl e)) (cleanOutline_pairwise _)
  · intro pages hy hh hne e he
    rw [extractOutline_of_hierarchy pages hy hh, assemble_outline, if_neg hne] at he
    have he2 := (sortedOutline_perm _).mem_iff.mp he
    obtain ⟨c, hc, hec⟩ := cleanOutline_mem _ e he2
    obtain ⟨pre, l, post, h1, h2, _, _, h5, h6⟩ :=
      (loopInvariant_classify hy (allText pages)).1 c hc
    refine ⟨pre, l, post, h1, ?_, h5, h6⟩
    rw [hec]
    exact h2

/-- C6, at the document with the lines "Chapter 1 Overview" and "chapter 1 overview": the
outline has the first text only. -/
theorem outline_texts_distinct_ignoring_case_witness :
    hierarchy (allText caseVariantDocument) =
        some { H1Size := some 14, H2Size := none, H3Size := none, H4Size := none,
               bodySize := 10 } ∧
      (extractOutline false (Load.loaded caseVariantDocument)).outline =
        [{ level := Level.H1, text := "Chapter 1 Overview".toList, page := 1 }] ∧
      ∀ e ∈ (extractOutline false (Load.loaded caseVariantDocument)).outline,
        ∃ pre lineItems post,
          lines (allText caseVariantDocument) = pre ++ lineItems :: post ∧
            e.text = lineText lineItems ∧
            isHeadingLine
              { H1Size := some 14, H2Size := none, H3Size := none, H4Size := none,
                bodySize := 10 } lineItems = true ∧
            ∀ earlier ∈ pre,
              isHeadingLine
                { H1Size := some 14, H2Size := none, H3Size := none, H4Size := none,
                  bodySize := 10 } earlier = true →
              toLowerCase (lineText earlier) ≠ toLowerCase (lineText lineItems) :=
  ⟨by decide!, by decide!,
    outline_texts_distinct_ignoring_case.2 caseVariantDocument
      { H1Size := some 14, H2Size := none, H3Size := none, H4Size := none, bodySize := 10 }
      (by decide!) (by decide!)⟩

/-! ## Title -/

theorem processLine_title_eq (h : Hierarchy) (st : ClassifyState) (lineItems : List TextItem) :
    (processLine h st lineItems).title =
      if claimsTitle h st lineItems = true ∧ st.title = [] then lineText lineItems
      else st.title := by
  cases hs : skipLine st lineItems with
  | true =>
    rw [processLine_skip h st lineItems hs]
    simp [claimsTitle, hs]
  | false =>
    rw [processLine_title h st lineItems hs]
    unfold detectTitle claimsTitle
    rw [hs]
    cases hsz : sizeLevel h (roundedSize lineItems) with
    | none =>
      simp only [Bool.not_false, Bool.true_and, decide_eq_true_eq]
      cases hh : heuristicLevel h (lineText lineItems) lineItems (roundedSize lineItems) with
      | none => simp
      | some level =>
        cases level <;> cases ht : st.title <;> simp
    | some level =>
      cases level <;> cases ht : st.title <;> simp

theorem lineText_ne_nil_of_claimsTitle (h : Hierarchy) (st : ClassifyState)
    (lineItems : List TextItem) (hc : claimsTitle h st lineItems = true) :
    lineText lineItems ≠ [] := by
  unfold claimsTitle at hc
  simp only [Bool.and_eq_true, Bool.not_eq_true'] at hc
  have := length_ge_of_not_skip st lineItems hc.1
  intro e
  rw [e] at this
  simp at this

theorem processLines_title_set (h : Hierarchy) (ls : List (List TextItem))
    (st : ClassifyState) (ht : st.title ≠ []) : (processLines h st ls).title = st.title := by
  induction ls generalizing st with
  | nil => rfl
  | cons l rest ih =>
    have h1 : (processLine h st l).title = st.title := by
      rw [processLine_title_eq]
      simp [ht]
    have := ih (processLine h st l) (by rw [h1]; exact ht)
    simp only [processLines, List.foldl_cons] at this ⊢
    rw [this, h1]

theorem processLines_title_unset (h : Hierarchy) (ls : List (List TextItem))
    (st : ClassifyState) (ht : st.title = [])
    (hno : ∀ pre lineItems post, ls = pre ++ lineItems :: post →
      claimsTitle h (processLines h st pre) lineItems = false) :
    (processLines h st ls).title = [] := by
  induction ls generalizing st with
  | nil => exact ht
  | cons l rest ih =>
    have h0 : claimsTitle h st l = false := hno [] l rest rfl
    have h1 : (processLine h st l).title = [] := by
      rw [processLine_title_eq]
      simp [h0, ht]
    have := ih (processLine h st l) h1 (by
      intro pre lineItems post e
      have := hno (l :: pre) lineItems post (by rw [e]; rfl)
      simpa [processLines] using this)
    simpa [processLines] using this

theorem processLines_append (h : Hierarchy) (st : ClassifyState)
    (xs ys : List (List TextItem)) :
    processLines h st (xs ++ ys) = processLines h (processLines h st xs) ys := by
  simp [processLines, List.foldl_append]

/-- C8: for every document with at least one surviving run (dummy data off), the returned
title is the text of the first line, in discovery order, that is classified H1 either by
font size with a text shorter than 100 characters or by the heuristic fallback; when no line
is so classified the title is the placeholder "Document Analysis Complete". -/
theorem title_is_first_H1_line (pages : List (List TextContentItem))
    (h : allText pages ≠ []) :
    ∃ hy, hierarchy (allText pages) = some hy ∧
      (∀ pre lineItems post,
        lines (allText pages) = pre ++ lineItems :: post →
        claimsTitle hy (processLines hy ClassifyState.init pre) lineItems = true →
        (∀ pre2 earlier post2, pre = pre2 ++ earlier :: post2 →
          claimsTitle hy (processLines hy ClassifyState.init pre2) earlier = false) →
        (extractOutline false (Load.loaded pages)).title = lineText lineItems) ∧
      ((∀ pre lineItems post,
          lines (allText pages) = pre ++ lineItems :: post →
          claimsTitle hy (processLines hy ClassifyState.init pre) lineItems = false) →
        (extractOutline false (Load.loaded pages)).title
          = "Document Analysis Complete".toList) := by
  obtain ⟨hy, h1, h2⟩ := extractOutline_classified pages h
  refine ⟨hy, h1, ?_, ?_⟩
  · intro pre lineItems post hl hc hfirst
    have hpre : (processLines hy ClassifyState.init pre).title = [] :=
      processLines_title_unset hy pre ClassifyState.init rfl hfirst
    have hne := lineText_ne_nil_of_claimsTitle hy _ lineItems hc
    have hstep : (processLine hy (processLines hy ClassifyState.init pre) lineItems).title
        = lineText lineItems := by
      rw [processLine_title_eq]
      simp [hc, hpre]
    have hall : (classify hy (allText pages)).title = lineText lineItems := by
      unfold classify
      rw [hl, processLines_append]
      have : processLines hy (processLines hy ClassifyState.init pre) (lineItems :: post)
          = processLines hy (processLine hy (processLines hy ClassifyState.init pre) lineItems)
              post := rfl
      rw [this, processLines_title_set hy post _ (by rw [hstep]; exact hne), hstep]
    rw [h2, assemble_title, hall]
    cases ht : lineText lineItems with
    | nil => exact absurd ht hne
    | cons c t => simp
  · intro hno
    have hall : (classify hy (allText pages)).title = [] :=
      processLines_title_unset hy _ ClassifyState.init rfl hno
    rw [h2, assemble_title, hall]
    rfl

/-- C8, at the document with the headings "Results" and "Results and": the title is
"Results". -/
theorem title_is_first_H1_line_witness :
    allText containedHeadingDocument ≠ [] ∧
      (extractOutline false (Load.loaded containedHeadingDocument)).title = "Results".toList ∧
      ∃ hy, hierarchy (allText containedHeadingDocument) = some hy ∧
        (∀ pre lineItems post,
          lines (allText containedHeadingDocument) = pre ++ lineItems :: post →
          claimsTitle hy (processLines hy ClassifyState.init pre) lineItems = true →
          (∀ pre2 earlier post2, pre = pre2 ++ earlier :: post2 →
            claimsTitle hy (processLines hy ClassifyState.init pre2) earlier = false) →
          (extractOutline false (Load.loaded containedHeadingDocument)).title
            = lineText lineItems) ∧
        ((∀ pre lineItems post,
            lines (allText containedHeadingDocument) = pre ++ lineItems :: post →
            claimsTitle hy (processLines hy ClassifyState.init pre) lineItems = false) →
          (extractOutline false (Load.loaded containedHeadingDocument)).title
            = "Document Analysis Complete".toList) :=
  ⟨by decide!, by decide!, title_is_first_H1_line containedHeadingDocument (by decide!)⟩

/-! ## Fallback outlines -/

theorem processLine_not_heading (h : Hierarchy) (st : ClassifyState)
    (lineItems : List TextItem) (hn : isHeadingLine h lineItems = false) :
    processLine h st lineItems = st := by
  cases hs : skipLine st lineItems with
  | true => exact processLine_skip h st lineItems hs
  | false =>
    rw [isHeadingLine_of_not_skip h st lineItems hs] at hn
    have hl : detectLevel h lineItems = none := by
      cases hd : detectLevel h lineItems with
      | none => rfl
      | some l => rw [hd] at hn; simp at hn
    have hsz : sizeLevel h (roundedSize lineItems) = none := by
      unfold detectLevel at hl
      cases hz : sizeLevel h (roundedSize lineItems) with
      | none => rfl
      | some l => rw [hz] at hl; simp at hl
    have hhe : heuristicLevel h (lineText lineItems) lineItems (roundedSize lineItems)
        = none := by
      unfold detectLevel at hl
      rw [hsz] at hl
      exact hl
    unfold processLine
    simp [hs, hl, detectTitle, hsz, hhe]

theorem processLines_not_heading (h : Hierarchy) (ls : List (List TextItem))
    (st : ClassifyState) (hn : ∀ lineItems ∈ ls, isHeadingLine h lineItems = false) :
    processLines h st ls = st := by
  induction ls generalizing st with
  | nil => rfl
  | cons l rest ih =>
    have h1 := processLine_not_heading h st l (hn l (List.mem_cons_self _ _))
    have := ih st (fun x hx => hn x (List.mem_cons_of_mem _ hx))
    simp only [processLines, List.foldl_cons] at this ⊢
    rw [h1, this]

/-- C9: for every document with at least one surviving run (dummy data off) on which no
line is classified as a heading, the returned outline is exactly the three entries
(H1, "Document Overview", 1), (H2, "Main Content", 1), (H3, "Section Details", 2), in that
order, and the title is "Document Analysis Complete". -/
theorem fallback_when_no_heading (pages : List (List TextContentItem)) (hy : Hierarchy)
    (hh : hierarchy (allText pages) = some hy)
    (hn : ∀ lineItems ∈ lines (allText pages), isHeadingLine hy lineItems = false) :
    allText pages ≠ [] ∧
      (extractOutline false (Load.loaded pages)).outline =
        [ { level := Level.H1, text := "Document Overview".toList, page := 1 },
          { level := Level.H2, text := "Main Content".toList, page := 1 },
          { level := Level.H3, text := "Section Details".toList, page := 2 } ] ∧
      (extractOutline false (Load.loaded pages)).title
        = "Document Analysis Complete".toList := by
  refine ⟨hierarchy_some_ne_nil _ hy hh, ?_⟩
  rw [extractOutline_of_hierarchy pages hy hh]
  have hc : classify hy (allText pages) = ClassifyState.init :=
    processLines_not_heading hy _ _ hn
  rw [hc]
  exact ⟨rfl, rfl⟩

/-- C9, at the document with one line of lower-case body text. -/
theorem fallback_when_no_heading_witness :
    hierarchy (allText bodyOnlyDocument) =
        some { H1Size := none, H2Size := none, H3Size := none, H4Size := none,
               bodySize := 10 } ∧
      (extractOutline false (Load.loaded bodyOnlyDocument)).outline =
        [ { level := Level.H1, text := "Document Overview".toList, page := 1 },
          { level := Level.H2, text := "Main Content".toList, page := 1 },
          { level := Level.H3, text := "Section Details".toList, page := 2 } ] ∧
      (extractOutline false (Load.loaded bodyOnlyDocument)).title
        = "Document Analysis Complete".toList :=
  ⟨by decide!,
    (fallback_when_no_heading bodyOnlyDocument
      { H1Size := none, H2Size := none, H3Size := none, H4Size := none, bodySize := 10 }
      (by decide!) (by decide!)).2⟩

theorem collectPages_eq_nil (pages : List (List TextContentItem)) (n : Nat)
    (hshort : ∀ content ∈ pages, ∀ raw ∈ content, (trim raw.str).length < 2) :
    collectPages n pages = [] := by
  induction pages generalizing n with
  | nil => rfl
  | cons content rest ih =>
    simp only [collectPages, List.append_eq_nil]
    refine ⟨?_, ih (n + 1) (fun c hc => hshort c (List.mem_cons_of_mem _ hc))⟩
    rw [List.filterMap_eq_nil_iff]
    intro raw hraw
    have := hshort content (List.mem_cons_self _ _) raw hraw
    unfold collectItem
    simp [this]

/-- C10 (counterexample): a document with zero pages takes the dummy-data branch: the
result is the dummy result, with title "Understanding AI" and ten entries, not the
two-entry result with the placeholder title. -/
theorem zero_pages_gives_dummy :
    allText [] = [] ∧
      extractOutline false (Load.loaded []) = dummyResult ∧
      (extractOutline false (Load.loaded [])).title = "Understanding AI".toList ∧
      (extractOutline false (Load.loaded [])).title ≠ "Document Analysis Complete".toList ∧
      (extractOutline false (Load.loaded [])).outline.length = 10 := by
  decide

/-- C10 (amended): for every document with at least one page (dummy data off) on which
every run is empty or shorter than 2 characters after trimming, the collector produces no
run and the result is exactly the title "Document Analysis Complete" with the outline
(H1, "Document Content", 1), (H2, "Main Section", 1), whatever the runs are. -/
theorem no_text_result (pages : List (List TextContentItem)) (hp : pages ≠ [])
    (hshort : ∀ content ∈ pages, ∀ raw ∈ content, (trim raw.str).length < 2) :
    allText pages = [] ∧
      extractOutline false (Load.loaded pages) =
        { title := "Document Analysis Complete".toList
          outline :=
            [ { level := Level.H1, text := "Document Content".toList, page := 1 },
              { level := Level.H2, text := "Main Section".toList, page := 1 } ]
          error := none } := by
  have h0 : allText pages = [] := collectPages_eq_nil pages 1 hshort
  refine ⟨h0, ?_⟩
  have : pages.length ≠ 0 := fun h => hp (List.length_eq_zero.mp h)
  simp only [extractOutline, this, decide_False, Bool.or_self, Bool.false_eq_true, if_false]
  unfold analyse
  rw [h0]
  rfl

/-- C10 (amended), at a document of two pages with blank and one-character runs. -/
theorem no_text_result_witness :
    blankDocument ≠ [] ∧
      (∀ content ∈ blankDocument, ∀ raw ∈ content, (trim raw.str).length < 2) ∧
      extractOutline false (Load.loaded blankDocument) =
        { title := "Document Analysis Complete".toList
          outline :=
            [ { level := Level.H1, text := "Document Content".toList, page := 1 },
              { level := Level.H2, text := "Main Section".toList, page := 1 } ]
          error := none } :=
  ⟨by decide, by decide!, (no_text_result blankDocument (by decide) (by decide!)).2⟩

/-! ## Heuristic fallback -/

theorem heuristicLevel_isSome (h : Hierarchy) (text : Str) (lineItems : List TextItem)
    (r : Int) (level : Level) (hl : heuristicLevel h text lineItems r = some level) :
    5 < text.length ∧ text.length ≤ 100 ∧
      (text = toUpperCase text ∨ startsWithNumbering text = true ∨
        (startsWithCapital text = true ∧ endsWithPunctuation text = false ∧
          lineItems.length = 1)) := by
  unfold heuristicLevel at hl
  split_ifs at hl with h1 h2
  all_goals
    simp only [Bool.and_eq_true, decide_eq_true_eq] at h1
    unfold heuristicQualifies isAllCaps at h2
    simp only [Bool.and_eq_true, Bool.or_eq_true, decide_eq_true_eq, Bool.not_eq_true'] at h2
    refine ⟨h1.2, h2.1.2, ?_⟩
    rcases h2.2 with (h3 | h3) | h3
    · exact Or.inl h3.1
    · exact Or.inr (Or.inl h3)
    · exact Or.inr (Or.inr ⟨h3.1.1, h3.1.2, h3.2⟩)

theorem processLine_outline_of_no_level (h : Hierarchy) (st : ClassifyState)
    (lineItems : List TextItem) (hl : detectLevel h lineItems = none) :
    (processLine h st lineItems).outline = st.outline := by
  cases hs : skipLine st lineItems with
  | true => rw [processLine_skip h st lineItems hs]
  | false => exact (processLine_drop h st lineItems hs hl).1

/-- C12: for every line to which the size-based step assigns no level, a level is assigned
only if the text has more than 5 and at most 100 characters and is all-caps, or starts with
the numbering pattern, or starts with an upper-case letter, does not end in one of
`. ! ? ; ,` and is a single glyph run; otherwise the line gets no level and is dropped (the
outline is left as it was).  In particular a line ending in punctuation that is neither
all-caps nor numbered is dropped, isolated or not, and the heuristic step gives the text
"Summary..." no level whatever the line and the sizes are. -/
theorem heuristic_level_only_if (h : Hierarchy) (st : ClassifyState)
    (lineItems : List TextItem) (hsz : sizeLevel h (roundedSize lineItems) = none) :
    (∀ level, detectLevel h lineItems = some level →
      5 < (lineText lineItems).length ∧ (lineText lineItems).length ≤ 100 ∧
        (lineText lineItems = toUpperCase (lineText lineItems) ∨
          startsWithNumbering (lineText lineItems) = true ∨
          (startsWithCapital (lineText lineItems) = true ∧
            endsWithPunctuation (lineText lineItems) = false ∧ lineItems.length = 1))) ∧
    (¬ (5 < (lineText lineItems).length ∧ (lineText lineItems).length ≤ 100 ∧
        (lineText lineItems = toUpperCase (lineText lineItems) ∨
          startsWithNumbering (lineText lineItems) = true ∨
          (startsWithCapital (lineText lineItems) = true ∧
            endsWithPunctuation (lineText lineItems) = false ∧ lineItems.length = 1))) →
      detectLevel h lineItems = none ∧
        (processLine h st lineItems).outline = st.outline) ∧
    (endsWithPunctuation (lineText lineItems) = true →
      lineText lineItems ≠ toUpperCase (lineText lineItems) →
      startsWithNumbering (lineText lineItems) = false →
      detectLevel h lineItems = none ∧
        (processLine h st lineItems).outline = st.outline) ∧
    (∀ (h2 : Hierarchy) (items : List TextItem) (r : Int),
      heuristicLevel h2 "Summary...".toList items r = none) := by
  have hd : detectLevel h lineItems
      = heuristicLevel h (lineText lineItems) lineItems (roundedSize lineItems) := by
    unfold detectLevel
    rw [hsz]
  have key : ∀ level, detectLevel h lineItems = some level →
      5 < (lineText lineItems).length ∧ (lineText lineItems).length ≤ 100 ∧
        (lineText lineItems = toUpperCase (lineText lineItems) ∨
          startsWithNumbering (lineText lineItems) = true ∨
          (startsWithCapital (lineText lineItems) = true ∧
            endsWithPunctuation (lineText lineItems) = false ∧ lineItems.length = 1)) := by
    intro level hl
    rw [hd] at hl
    exact heuristicLevel_isSome h _ lineItems _ level hl
  have drop : ¬ (5 < (lineText lineItems).length ∧ (lineText lineItems).length ≤ 100 ∧
        (lineText lineItems = toUpperCase (lineText lineItems) ∨
          startsWithNumbering (lineText lineItems) = true ∨
          (startsWithCapital (lineText lineItems) = true ∧
            endsWithPunctuation (lineText lineItems) = false ∧ lineItems.length = 1))) →
      detectLevel h lineItems = none ∧
        (processLine h st lineItems).outline = st.outline := by
    intro hc
    have hn : detectLevel h lineItems = none := by
      cases hl : detectLevel h lineItems with
      | none => rfl
      | some level => exact absurd (key level hl) hc
    exact ⟨hn, processLine_outline_of_no_level h st lineItems hn⟩
  refine ⟨key, drop, ?_, ?_⟩
  · intro hp hup hnum
    apply drop
    rintro ⟨_, _, h3 | h3 | h3⟩
    · exact hup h3
    · rw [hnum] at h3; exact Bool.false_ne_true h3
    · rw [hp] at h3; exact Bool.noConfusion h3.2.1
  · intro h2 items r
    cases hl : heuristicLevel h2 "Summary...".toList items r with
    | none => rfl
    | some level =>
      rcases (heuristicLevel_isSome h2 _ items r level hl).2.2 with h3 | h3 | h3
      · exact absurd h3 (by decide)
      · exact absurd h3 (by decide)
      · exact absurd h3.2.1 (by decide)

/-- C12, at the two-run line "Summary of the work..." at the body size: it gets no level and
is dropped. -/
theorem heuristic_level_only_if_witness :
    sizeLevel bodyTenHierarchy (roundedSize summaryLine) = none ∧
      lineText summaryLine = "Summary of the work...".toList ∧
      detectLevel bodyTenHierarchy summaryLine = none ∧
      (processLine bodyTenHierarchy ClassifyState.init summaryLine).outline = [] :=
  ⟨by decide!, by decide!,
    ((heuristic_level_only_if bodyTenHierarchy ClassifyState.init summaryLine
      (by decide!)).2.2.1 (by decide!) (by decide!) (by decide!))⟩

/-- C13: for every line that reaches the classifier (it is not skipped by the gate of
line 213), whose text has between 6 and 100 characters and is equal to its upper-cased
form, to which the size-based step assigns no level, and whose rounded average font size is
below the body size plus 1, the assigned level is H3 and the line is pushed on the outline
as a heading candidate. -/
theorem allCaps_line_is_H3 (h : Hierarchy) (st : ClassifyState) (lineItems : List TextItem)
    (hskip : skipLine st lineItems = false)
    (hlo : 6 ≤ (lineText lineItems).length) (hhi : (lineText lineItems).length ≤ 100)
    (hup : lineText lineItems = toUpperCase (lineText lineItems))
    (hsz : sizeLevel h (roundedSize lineItems) = none)
    (hr : roundedSize lineItems < h.bodySize + 1) :
    detectLevel h lineItems = some Level.H3 ∧
      (processLine h st lineItems).outline =
        st.outline ++
          [{ level := Level.H3, text := lineText lineItems, page := pageNum lineItems,
             fontSize := roundedSize lineItems }] := by
  have hd : detectLevel h lineItems = some Level.H3 := by
    unfold detectLevel
    rw [hsz]
    unfold heuristicLevel
    have h1 : (decide ((lineText lineItems).length < 150)
        && decide ((lineText lineItems).length > 5)) = true := by
      simp only [Bool.and_eq_true, decide_eq_true_eq]
      omega
    have hcaps : isAllCaps (lineText lineItems) = true := by
      unfold isAllCaps
      simp only [Bool.and_eq_true, decide_eq_true_eq]
      exact ⟨hup, by omega⟩
    have h2 : heuristicQualifies (lineText lineItems) lineItems = true := by
      unfold heuristicQualifies
      simp only [hcaps, Bool.true_or, Bool.and_true, Bool.and_eq_true, decide_eq_true_eq]
      omega
    have h3 : ¬ roundedSize lineItems ≥ h.bodySize + 3 := by omega
    have h4 : ¬ roundedSize lineItems ≥ h.bodySize + 1 := by omega
    simp [h1, h2, h3, h4, hcaps]
  exact ⟨hd, (processLine_push h st lineItems Level.H3 hskip hd).1⟩

/-- C13, at the document whose first line is "INTRODUCTION" at the body size 10: the line is
classified H3 and makes the outline. -/
theorem allCaps_line_is_H3_witness :
    hierarchy (allText introductionDocument) = some bodyTenHierarchy ∧
      (lines (allText introductionDocument)).head? =
        some [{ text := "INTRODUCTION".toList, fontSize := 10, y := 700, page := 1, x := 0 }] ∧
      (extractOutline false (Load.loaded introductionDocument)).outline =
        [{ level := Level.H3, text := "INTRODUCTION".toList, page := 1 }] ∧
      detectLevel bodyTenHierarchy
          [{ text := "INTRODUCTION".toList, fontSize := 10, y := 700, page := 1, x := 0 }]
        = some Level.H3 ∧
      (processLine bodyTenHierarchy ClassifyState.init
          [{ text := "INTRODUCTION".toList, fontSize := 10, y := 700, page := 1, x := 0 }]).outline
        = ClassifyState.init.outline ++
          [{ level := Level.H3,
             text := lineText
              [{ text := "INTRODUCTION".toList, fontSize := 10, y := 700, page := 1, x := 0 }],
             page := pageNum
              [{ text := "INTRODUCTION".toList, fontSize := 10, y := 700, page := 1, x := 0 }],
             fontSize := roundedSize
              [{ text := "INTRODUCTION".toList, fontSize := 10, y := 700, page := 1,
                 x := 0 }] }] :=
  ⟨by decide!, by decide!, by decide!,
    allCaps_line_is_H3 bodyTenHierarchy ClassifyState.init
      [{ text := "INTRODUCTION".toList, fontSize := 10, y := 700, page := 1, x := 0 }]
      (by decide!) (by decide!) (by decide!) (by decide!) (by decide!) (by decide!)⟩

/-! ## Stable page sort -/

theorem pair_sublist_or {α : Type} (l : List α) (a b : α) (ha : a ∈ l) (hb : b ∈ l)
    (hne : a ≠ b) : List.Sublist [a, b] l ∨ List.Sublist [b, a] l := by
  induction l with
  | nil => simp at ha
  | cons x xs ih =>
    by_cases hax : a = x
    · subst hax
      have hb2 : b ∈ xs := by
        rcases List.mem_cons.mp hb with e | e
        · exact absurd e.symm hne
        · exact e
      exact Or.inl (List.Sublist.cons₂ _ (List.singleton_sublist.mpr hb2))
    · by_cases hbx : b = x
      · subst hbx
        have ha2 : a ∈ xs := by
          rcases List.mem_cons.mp ha with e | e
          · exact absurd e hax
          · exact e
        exact Or.inr (List.Sublist.cons₂ _ (List.singleton_sublist.mpr ha2))
      · have ha2 : a ∈ xs := by
          rcases List.mem_cons.mp ha with e | e
          · exact absurd e hax
          · exact e
        have hb2 : b ∈ xs := by
          rcases List.mem_cons.mp hb with e | e
          · exact absurd e hbx
          · exact e
        rcases ih ha2 hb2 with h | h
        · exact Or.inl (List.Sublist.cons _ h)
        · exact Or.inr (List.Sublist.cons _ h)

theorem sortedOutline_stable (clean : List OutlineEntry) (a b : OutlineEntry)
    (hab : List.Sublist [a, b] clean) (hp : a.page ≤ b.page) :
    List.Sublist [a, b] (sortedOutline clean) :=
  List.pair_sublist_insertionSort ((pageCompare_nonpos_iff a b).mpr hp) hab

theorem sortedOutline_swap (clean : List OutlineEntry) (a b : OutlineEntry)
    (hab : List.Sublist [a, b] clean) (hp : b.page < a.page) :
    List.Sublist [b, a] (sortedOutline clean) := by
  have ha : a ∈ sortedOutline clean :=
    (sortedOutline_perm clean).mem_iff.mpr (hab.subset (by simp))
  have hb : b ∈ sortedOutline clean :=
    (sortedOutline_perm clean).mem_iff.mpr (hab.subset (by simp))
  have hne : a ≠ b := by
    intro e
    rw [e] at hp
    exact Nat.lt_irrefl _ hp
  rcases pair_sublist_or _ a b ha hb hne with h | h
  · have := List.Pairwise.sublist h (sortedOutline_sorted clean)
    simp only [List.pairwise_cons, List.mem_singleton, forall_eq] at this
    exact absurd this.1 (Nat.not_le.mpr hp)
  · exact h

/-- C11 (counterexample): on the document with one line of body text no heading is kept,
and the final outline is the fallback outline of three entries, which is not a reordering
of the (empty) list of kept headings. -/
theorem fallback_is_not_reordering :
    cleanOutline (classify bodyTenHierarchy (allText bodyOnlyDocument)).outline = [] ∧
      hierarchy (allText bodyOnlyDocument) = some bodyTenHierarchy ∧
      (extractOutline false (Load.loaded bodyOnlyDocument)).outline.length = 3 ∧
      ¬ List.Perm (extractOutline false (Load.loaded bodyOnlyDocument)).outline
        (cleanOutline (classify bodyTenHierarchy (allText bodyOnlyDocument)).outline) := by
  have h1 : cleanOutline (classify bodyTenHierarchy (allText bodyOnlyDocument)).outline = [] := by
    decide!
  have h3 : (extractOutline false (Load.loaded bodyOnlyDocument)).outline.length = 3 := by
    decide!
  refine ⟨h1, by decide!, h3, ?_⟩
  intro hp
  have := hp.length_eq
  rw [h1, h3] at this
  exact absurd this (by decide)

/-- C11 (amended): for every document on which at least one heading is kept (dummy data
off), the final outline is the kept headings sorted by the page comparator: a reordering of
them in which two kept entries keep their discovery order when the page of the earlier one
is at most the page of the later one (entries of the same page in particular) and swap it
otherwise, so that the page number is the only key.  When no heading is kept, the fixed
fallback outline is returned instead. -/
theorem outline_is_stable_page_sort (pages : List (List TextContentItem)) (hy : Hierarchy)
    (hh : hierarchy (allText pages) = some hy)
    (hk : cleanOutline (classify hy (allText pages)).outline ≠ []) :
    (extractOutline false (Load.loaded pages)).outline
        = sortedOutline (cleanOutline (classify hy (allText pages)).outline) ∧
      List.Perm (extractOutline false (Load.loaded pages)).outline
        (cleanOutline (classify hy (allText pages)).outline) ∧
      (∀ a b, List.Sublist [a, b] (cleanOutline (classify hy (allText pages)).outline) →
        a.page = b.page →
        List.Sublist [a, b] (extractOutline false (Load.loaded pages)).outline) ∧
      (∀ a b, List.Sublist [a, b] (cleanOutline (classify hy (allText pages)).outline) →
        a.page ≤ b.page →
        List.Sublist [a, b] (extractOutline false (Load.loaded pages)).outline) ∧
      (∀ a b, List.Sublist [a, b] (cleanOutline (classify hy (allText pages)).outline) →
        b.page < a.page →
        List.Sublist [b, a] (extractOutline false (Load.loaded pages)).outline) := by
  have he : (extractOutline false (Load.loaded pages)).outline
      = sortedOutline (cleanOutline (classify hy (allText pages)).outline) := by
    rw [extractOutline_of_hierarchy pages hy hh, assemble_outline, if_neg hk]
  rw [he]
  exact ⟨rfl, sortedOutline_perm _,
    fun a b hab hp => sortedOutline_stable _ a b hab (Nat.le_of_eq hp),
    fun a b hab hp => sortedOutline_stable _ a b hab hp,
    fun a b hab hp => sortedOutline_swap _ a b hab hp⟩

/-- C11 (amended), at the document with the headings "Results" and "Results and", both on
page 1: the outline keeps them in discovery order. -/
theorem outline_is_stable_page_sort_witness :
    hierarchy (allText containedHeadingDocument) =
        some { H1Size := some 14, H2Size := none, H3Size := none, H4Size := none,
               bodySize := 10 } ∧
      (extractOutline false (Load.loaded containedHeadingDocument)).outline
        = sortedOutline (cleanOutline (classify
            { H1Size := some 14, H2Size := none, H3Size := none, H4Size := none,
              bodySize := 10 } (allText containedHeadingDocument)).outline) ∧
      List.Perm (extractOutline false (Load.loaded containedHeadingDocument)).outline
        (cleanOutline (classify
            { H1Size := some 14, H2Size := none, H3Size := none, H4Size := none,
              bodySize := 10 } (allText containedHeadingDocument)).outline) :=
  ⟨by decide!,
    (outline_is_stable_page_sort containedHeadingDocument
      { H1Size := some 14, H2Size := none, H3Size := none, H4Size := none, bodySize := 10 }
      (by decide!) (by decide!)).1,
    (outline_is_stable_page_sort containedHeadingDocument
      { H1Size := some 14, H2Size := none, H3Size := none, H4Size := none, bodySize := 10 }
      (by decide!) (by decide!)).2.1⟩

/-! ## The first candidate is kept -/

theorem cleanStep_extends (clean : List OutlineEntry) (item : HeadingCandidate) :
    ∃ tail, cleanStep clean item = clean ++ tail := by
  unfold cleanStep
  split_ifs
  · exact ⟨[cleanItem item], rfl⟩
  · exact ⟨[], by simp⟩

theorem cleanOutline_foldl_extends (items : List HeadingCandidate) (clean : List OutlineEntry) :
    ∃ tail, items.foldl cleanStep clean = clean ++ tail := by
  induction items generalizing clean with
  | nil => exact ⟨[], by simp⟩
  | cons item rest ih =>
    obtain ⟨t1, h1⟩ := cleanStep_extends clean item
    obtain ⟨t2, h2⟩ := ih (cleanStep clean item)
    refine ⟨t1 ++ t2, ?_⟩
    simp only [List.foldl_cons]
    rw [h2, h1, List.append_assoc]

theorem cleanOutline_cons (c : HeadingCandidate) (rest : List HeadingCandidate)
    (hc : 3 ≤ c.text.length) : ∃ tail, cleanOutline (c :: rest) = cleanItem c :: tail := by
  have h1 : cleanStep [] c = [cleanItem c] := by
    unfold cleanStep isDuplicate
    simp [hc]
  obtain ⟨t, ht⟩ := cleanOutline_foldl_extends rest [cleanItem c]
  refine ⟨t, ?_⟩
  unfold cleanOutline
  simp only [List.foldl_cons]
  rw [h1, ht]
  rfl

theorem candidate_length (h : Hierarchy) (items : List TextItem) :
    ∀ c ∈ (classify h items).outline, 3 ≤ c.text.length := by
  intro c hc
  obtain ⟨pre, l, post, _, h2, _, _, h5, _⟩ := (loopInvariant_classify h items).1 c hc
  rw [h2]
  unfold isHeadingLine at h5
  simp only [Bool.and_eq_true, Bool.not_eq_true', Bool.or_eq_false_iff,
    decide_eq_false_iff_not, not_lt] at h5
  exact h5.1.2

theorem seenTexts_step (h : Hierarchy) (st : ClassifyState) (lineItems : List TextItem)
    (hs : st.seenTexts = st.outline.map (fun c => toLowerCase c.text)) :
    (processLine h st lineItems).seenTexts =
      (processLine h st lineItems).outline.map (fun c => toLowerCase c.text) := by
  cases hk : skipLine st lineItems with
  | true => rw [processLine_skip h st lineItems hk]; exact hs
  | false =>
    cases hl : detectLevel h lineItems with
    | none =>
      obtain ⟨h1, h2⟩ := processLine_drop h st lineItems hk hl
      rw [h1, h2]; exact hs
    | some level =>
      obtain ⟨h1, h2⟩ := processLine_push h st lineItems level hk hl
      rw [h1, h2, hs]
      simp

theorem seenTexts_fold (h : Hierarchy) (ls : List (List TextItem)) (st : ClassifyState)
    (hs : st.seenTexts = st.outline.map (fun c => toLowerCase c.text)) :
    (processLines h st ls).seenTexts =
      (processLines h st ls).outline.map (fun c => toLowerCase c.text) := by
  induction ls generalizing st with
  | nil => exact hs
  | cons l rest ih =>
    have := ih (processLine h st l) (seenTexts_step h st l hs)
    simpa [processLines] using this

theorem no_heading_of_no_candidate (h : Hierarchy) (items : List TextItem)
    (hc : (classify h items).outline = []) :
    ∀ lineItems ∈ lines items, isHeadingLine h lineItems = false := by
  intro l hl
  have hseen : (classify h items).seenTexts = [] := by
    have := seenTexts_fold h (lines items) ClassifyState.init rfl
    unfold classify at hc ⊢
    rw [this, hc]
    rfl
  cases hh : isHeadingLine h l with
  | false => rfl
  | true =>
    have := (loopInvariant_classify h items).2 l hl hh
    rw [hseen] at this
    simp at this

theorem title_step (h : Hierarchy) (st : ClassifyState) (lineItems : List TextItem)
    (ht : st.title ≠ [] → st.outline ≠ []) :
    (processLine h st lineItems).title ≠ [] → (processLine h st lineItems).outline ≠ [] := by
  cases hk : skipLine st lineItems with
  | true => rw [processLine_skip h st lineItems hk]; exact ht
  | false =>
    cases hl : detectLevel h lineItems with
    | none =>
      have hn : isHeadingLine h lineItems = false := by
        rw [isHeadingLine_of_not_skip h st lineItems hk, hl]; rfl
      rw [processLine_not_heading h st lineItems hn]
      exact ht
    | some level =>
      intro _
      rw [(processLine_push h st lineItems level hk hl).1]
      simp

theorem title_fold (h : Hierarchy) (ls : List (List TextItem)) (st : ClassifyState)
    (ht : st.title ≠ [] → st.outline ≠ []) :
    (processLines h st ls).title ≠ [] → (processLines h st ls).outline ≠ [] := by
  induction ls generalizing st with
  | nil => exact ht
  | cons l rest ih =>
    have := ih (processLine h st l) (title_step h st l ht)
    simpa [processLines] using this

theorem candidate_of_title (h : Hierarchy) (items : List TextItem)
    (ht : (classify h items).title ≠ []) : (classify h items).outline ≠ [] :=
  title_fold h (lines items) ClassifyState.init (fun hn => absurd rfl hn) ht

theorem cleanOutline_eq_nil_iff (h : Hierarchy) (items : List TextItem) :
    cleanOutline (classify h items).outline = [] ↔ (classify h items).outline = [] := by
  constructor
  · intro hc
    cases ho : (classify h items).outline with
    | nil => rfl
    | cons c rest =>
      have hlen := candidate_length h items c (by rw [ho]; exact List.mem_cons_self _ _)
      obtain ⟨t, ht⟩ := cleanOutline_cons c rest hlen
      rw [ho, ht] at hc
      exact absurd hc (List.cons_ne_nil _ _)
  · intro ho
    rw [ho]
    rfl

/-- C16: the deduplicator keeps the first candidate of every non-empty list of heading
candidates (a candidate has a text of length at least 3); so on every document with at
least one surviving run (dummy data off) the kept set is empty if and only if the candidate
list is empty, the fixed fallback outline is substituted only when no line is classified as
a heading, and whenever a title was taken from a line the outline is the sorted kept
headings, not the substituted fallback. -/
theorem first_candidate_is_kept (pages : List (List TextContentItem))
    (h : allText pages ≠ []) :
    (∀ (c : HeadingCandidate) (rest : List HeadingCandidate), 3 ≤ c.text.length →
      ∃ tail, cleanOutline (c :: rest) = cleanItem c :: tail) ∧
    ∃ hy, hierarchy (allText pages) = some hy ∧
      (∀ c ∈ (classify hy (allText pages)).outline, 3 ≤ c.text.length) ∧
      (∀ c rest, (classify hy (allText pages)).outline = c :: rest →
        ∃ tail, cleanOutline (classify hy (allText pages)).outline = cleanItem c :: tail) ∧
      (cleanOutline (classify hy (allText pages)).outline = [] ↔
        (classify hy (allText pages)).outline = []) ∧
      (extractOutline false (Load.loaded pages)).outline =
        (if cleanOutline (classify hy (allText pages)).outline = [] then fallbackOutline
         else sortedOutline (cleanOutline (classify hy (allText pages)).outline)) ∧
      (cleanOutline (classify hy (allText pages)).outline = [] →
        ∀ lineItems ∈ lines (allText pages), isHeadingLine hy lineItems = false) ∧
      ((classify hy (allText pages)).title ≠ [] →
        (extractOutline false (Load.loaded pages)).title = (classify hy (allText pages)).title ∧
          cleanOutline (classify hy (allText pages)).outline ≠ [] ∧
          (extractOutline false (Load.loaded pages)).outline
            = sortedOutline (cleanOutline (classify hy (allText pages)).outline)) := by
  refine ⟨cleanOutline_cons, ?_⟩
  obtain ⟨hy, h1, h2⟩ := extractOutline_classified pages h
  have hout : (extractOutline false (Load.loaded pages)).outline =
      (if cleanOutline (classify hy (allText pages)).outline = [] then fallbackOutline
       else sortedOutline (cleanOutline (classify hy (allText pages)).outline)) := by
    rw [h2, assemble_outline]
  refine ⟨hy, h1, candidate_length hy _, ?_, cleanOutline_eq_nil_iff hy _, hout, ?_, ?_⟩
  · intro c rest ho
    have hlen := candidate_length hy _ c (by rw [ho]; exact List.mem_cons_self _ _)
    rw [ho]
    exact cleanOutline_cons c rest hlen
  · intro hc
    exact no_heading_of_no_candidate hy _ ((cleanOutline_eq_nil_iff hy _).mp hc)
  · intro ht
    have hne : cleanOutline (classify hy (allText pages)).outline ≠ [] := fun hc =>
      candidate_of_title hy _ ht ((cleanOutline_eq_nil_iff hy _).mp hc)
    refine ⟨?_, hne, ?_⟩
    · rw [h2, assemble_title]
      cases htt : (classify hy (allText pages)).title with
      | nil => exact absurd htt ht
      | cons c t => simp
    · rw [hout, if_neg hne]

/-- C16, at the document with the headings "Results" and "Results and": the first
candidate, "Results", is kept, and the outline is not the fallback. -/
theorem first_candidate_is_kept_witness :
    allText containedHeadingDocument ≠ [] ∧
      (extractOutline false (Load.loaded containedHeadingDocument)).outline.head? =
        some { level := Level.H1, text := "Results".toList, page := 1 } ∧
      ∃ hy, hierarchy (allText containedHeadingDocument) = some hy ∧
        (cleanOutline (classify hy (allText containedHeadingDocument)).outline = [] ↔
          (classify hy (allText containedHeadingDocument)).outline = []) :=
  ⟨by decide!, by decide!,
    (first_candidate_is_kept containedHeadingDocument (by decide!)).2.imp
      (fun _ hx => ⟨hx.1, hx.2.2.2.1⟩)⟩

/-! ## Line grouping -/

theorem linesAt_pushLine (ls : Lines) (item : TextItem) (key : Nat × Int) :
    linesAt (pushLine ls item) key =
      linesAt ls key ++ (if lineKey item = key then [item] else []) := by
  induction ls with
  | nil =>
    by_cases h : lineKey item = key <;> simp [pushLine, linesAt, h]
  | cons p rest ih =>
    obtain ⟨k, g⟩ := p
    unfold pushLine
    by_cases h1 : k = lineKey item
    · rw [if_pos h1]
      by_cases h2 : k = key
      · have h3 : lineKey item = key := h1.symm.trans h2
        simp [linesAt, h2, h3]
      · have h3 : ¬ lineKey item = key := fun e => h2 (h1.trans e)
        simp [linesAt, h2, h3]
    · rw [if_neg h1]
      by_cases h2 : k = key
      · have h3 : ¬ lineKey item = key := fun e => h1 (h2.trans e.symm)
        simp [linesAt, h2, h3]
      · simp [linesAt, h2, ih]

theorem linesAt_foldl (items : List TextItem) (ls : Lines) (key : Nat × Int) :
    linesAt (items.foldl pushLine ls) key =
      linesAt ls key ++ items.filter (fun item => decide (lineKey item = key)) := by
  induction items generalizing ls with
  | nil => simp
  | cons item rest ih =>
    simp only [List.foldl_cons]
    rw [ih, linesAt_pushLine]
    by_cases h : lineKey item = key
    · simp [List.filter_cons, h]
    · simp [List.filter_cons, h]

theorem pushLine_keys (ls : Lines) (item : TextItem) :
    (pushLine ls item).map Prod.fst =
      if lineKey item ∈ ls.map Prod.fst then ls.map Prod.fst
      else ls.map Prod.fst ++ [lineKey item] := by
  induction ls with
  | nil => simp [pushLine]
  | cons p rest ih =>
    obtain ⟨k, g⟩ := p
    unfold pushLine
    by_cases h1 : k = lineKey item
    · rw [if_pos h1]
      simp [h1]
    · rw [if_neg h1]
      have h2 : ¬ lineKey item = k := fun e => h1 e.symm
      simp only [List.map_cons, ih, List.mem_cons, h2, false_or]
      split_ifs <;> simp

theorem lines_foldl_nodup (items : List TextItem) (ls : Lines)
    (h : (ls.map Prod.fst).Nodup) : ((items.foldl pushLine ls).map Prod.fst).Nodup := by
  induction items generalizing ls with
  | nil => simpa using h
  | cons item rest ih =>
    simp only [List.foldl_cons]
    apply ih
    rw [pushLine_keys]
    split_ifs with hm
    · exact h
    · exact List.Nodup.append h (List.nodup_singleton _) (by simpa using hm)

theorem lines_foldl_keys (items : List TextItem) (ls : Lines) (key : Nat × Int)
    (h : key ∈ (items.foldl pushLine ls).map Prod.fst) :
    key ∈ ls.map Prod.fst ∨ ∃ item ∈ items, lineKey item = key := by
  induction items generalizing ls with
  | nil => exact Or.inl h
  | cons item rest ih =>
    simp only [List.foldl_cons] at h
    rcases ih _ h with h1 | ⟨it, hit, hk⟩
    · rw [pushLine_keys] at h1
      split_ifs at h1
      · exact Or.inl h1
      · rcases List.mem_append.mp h1 with h2 | h2
        · exact Or.inl h2
        · rw [List.mem_singleton] at h2
          exact Or.inr ⟨item, List.mem_cons_self _ _, h2.symm⟩
    · exact Or.inr ⟨it, List.mem_cons_of_mem _ hit, hk⟩

theorem linesAt_of_mem (ls : Lines) (key : Nat × Int) (lineItems : List TextItem)
    (hn : (ls.map Prod.fst).Nodup) (hm : (key, lineItems) ∈ ls) :
    linesAt ls key = lineItems := by
  induction ls with
  | nil => simp at hm
  | cons p rest ih =>
    obtain ⟨k, g⟩ := p
    simp only [List.map_cons, List.nodup_cons] at hn
    rcases List.mem_cons.mp hm with e | e
    · simp only [Prod.mk.injEq] at e
      simp [linesAt, e.1, e.2]
    · have hk : ¬ k = key := by
        intro ek
        apply hn.1
        rw [ek]
        exact List.mem_map_of_mem Prod.fst e
      simp [linesAt, hk, ih hn.2 e]

theorem mem_of_linesAt_ne_nil (ls : Lines) (key : Nat × Int) (h : linesAt ls key ≠ []) :
    (key, linesAt ls key) ∈ ls := by
  induction ls with
  | nil => simp [linesAt] at h
  | cons p rest ih =>
    obtain ⟨k, g⟩ := p
    by_cases hk : k = key
    · simp [linesAt, hk]
    · simp only [linesAt, hk, if_false] at h ⊢
      exact List.mem_cons_of_mem _ (ih h)

theorem lines_mem (items : List TextItem) (lineItems : List TextItem)
    (h : lineItems ∈ lines items) :
    ∃ key, (key, lineItems) ∈ items.foldl pushLine [] ∧
      lineItems = items.filter (fun item => decide (lineKey item = key)) ∧
      ∃ item ∈ items, lineKey item = key := by
  unfold lines at h
  rw [List.mem_map] at h
  obtain ⟨⟨key, g⟩, hm, hg⟩ := h
  simp only at hg
  subst hg
  refine ⟨key, hm, ?_, ?_⟩
  · have h1 := linesAt_of_mem _ key g (lines_foldl_nodup items [] (by simp)) hm
    rw [linesAt_foldl] at h1
    simpa [linesAt] using h1.symm
  · have hk : key ∈ (items.foldl pushLine []).map Prod.fst := List.mem_map_of_mem Prod.fst hm
    rcases lines_foldl_keys items [] key hk with h2 | h2
    · simp at h2
    · exact h2

theorem lines_ne_nil (items : List TextItem) (lineItems : List TextItem)
    (h : lineItems ∈ lines items) : lineItems ≠ [] := by
  obtain ⟨key, _, hf, it, hit, hk⟩ := lines_mem items lineItems h
  intro e
  have : it ∈ items.filter (fun item => decide (lineKey item = key)) :=
    List.mem_filter.mpr ⟨hit, by simpa using hk⟩
  rw [← hf, e] at this
  simp at this

theorem lines_subset (items : List TextItem) (lineItems : List TextItem)
    (h : lineItems ∈ lines items) : ∀ item ∈ lineItems, item ∈ items := by
  obtain ⟨key, _, hf, _⟩ := lines_mem items lineItems h
  intro it hit
  rw [hf] at hit
  exact (List.mem_filter.mp hit).1

/-! ## Documents without a size above the body size -/

theorem fontSizeMap_foldl_mem (items : List TextItem) (m : FontSizeMap) (size : Int)
    (h : size ∈ m.map Prod.fst ∨ ∃ item ∈ items, item.fontSize = size) :
    size ∈ (items.foldl (fun m item => FontSizeMap.add m item.fontSize item.text.length) m).map
      Prod.fst := by
  induction items generalizing m with
  | nil =>
    rcases h with h | ⟨it, hit, _⟩
    · exact h
    · simp at hit
  | cons item rest ih =>
    simp only [List.foldl_cons]
    apply ih
    rw [FontSizeMap.add_keys]
    rcases h with h | ⟨it, hit, hs⟩
    · left
      split_ifs
      · exact h
      · exact List.mem_append_left _ h
    · rcases List.mem_cons.mp hit with e | e
      · left
        subst e
        rw [hs]
        split_ifs with hm
        · exact hm
        · exact List.mem_append_right _ (List.mem_singleton_self _)
      · exact Or.inr ⟨it, e, hs⟩

theorem fontSize_mem_keys (items : List TextItem) (item : TextItem) (h : item ∈ items) :
    item.fontSize ∈ (fontSizeMap items).map Prod.fst :=
  fontSizeMap_foldl_mem items [] _ (Or.inr ⟨item, h, rfl⟩)

theorem sum_le_length_mul (xs : List Int) (b : Int) (h : ∀ x ∈ xs, x ≤ b) :
    xs.sum ≤ (xs.length : Int) * b := by
  induction xs with
  | nil => simp
  | cons x rest ih =>
    have h1 := h x (List.mem_cons_self _ _)
    have h2 := ih (fun y hy => h y (List.mem_cons_of_mem _ hy))
    simp only [List.sum_cons, List.length_cons]
    push_cast
    linarith

theorem roundedSize_le (lineItems : List TextItem) (b : Int) (hne : lineItems ≠ [])
    (h : ∀ item ∈ lineItems, item.fontSize ≤ b) : roundedSize lineItems ≤ b := by
  unfold roundedSize mathRound
  have hlen : (0 : ℚ) < ((lineItems.length : Nat) : ℚ) := by
    have : 0 < lineItems.length := List.length_pos.mpr hne
    exact_mod_cast this
  have hsum : (lineItems.map (fun item => item.fontSize)).sum
      ≤ ((lineItems.map (fun item => item.fontSize)).length : Int) * b :=
    sum_le_length_mul _ b (by
      intro x hx
      rw [List.mem_map] at hx
      obtain ⟨it, hit, e⟩ := hx
      rw [← e]
      exact h it hit)
  rw [List.length_map] at hsum
  have hq : (((lineItems.map (fun item => item.fontSize)).sum : Int) : ℚ)
      ≤ ((lineItems.length : Nat) : ℚ) * (b : ℚ) := by
    exact_mod_cast hsum
  have hdiv : (((lineItems.map (fun item => item.fontSize)).sum : Int) : ℚ)
      / ((lineItems.length : Nat) : ℚ) ≤ (b : ℚ) := by
    rw [div_le_iff₀ hlen]
    linarith
  have : Int.floor ((((lineItems.map (fun item => item.fontSize)).sum : Int) : ℚ)
      / ((lineItems.length : Nat) : ℚ) + 1 / 2) < b + 1 := by
    rw [Int.floor_lt, Int.cast_add, Int.cast_one]
    linarith
  omega

theorem headingSizes_eq_nil (sorted : List Int) (body : Int) (h : ∀ s ∈ sorted, s ≤ body) :
    headingSizes sorted body = [] := by
  unfold headingSizes
  have : sorted.filter (fun size => decide (size > body)) = [] := by
    rw [List.filter_eq_nil_iff]
    intro s hs
    have := h s hs
    simp only [decide_eq_true_eq]
    omega
  rw [this]
  rfl

theorem sizeLevel_none_of_no_sizes (body : Int) (r : Int) :
    sizeLevel (hierarchyOf [] body) r = none := by
  simp [sizeLevel, hierarchyOf, truthy]

theorem heuristicLevel_of_le (h : Hierarchy) (text : Str) (lineItems : List TextItem) (r : Int)
    (hr : r ≤ h.bodySize) :
    heuristicLevel h text lineItems r = none ∨
      heuristicLevel h text lineItems r = some Level.H3 := by
  unfold heuristicLevel
  have h3 : ¬ r ≥ h.bodySize + 3 := by omega
  have h1 : ¬ r ≥ h.bodySize + 1 := by omega
  simp only [h3, h1, if_false]
  split_ifs <;> simp

theorem geSize_get?_false (sizes : List Int) (r : Int) (i : Nat)
    (h : ∀ s ∈ sizes, r < s) : geSize r (sizes.get? i) = false := by
  cases hg : sizes.get? i with
  | none => rfl
  | some n =>
    have := h n (List.get?_mem hg)
    simp only [geSize, decide_eq_false_iff_not, not_le]
    exact this

theorem sizeLevel_none_of_lt (sizes : List Int) (body : Int) (r : Int)
    (h : ∀ s ∈ sizes, r < s) : sizeLevel (hierarchyOf sizes body) r = none := by
  have h0 := geSize_get?_false sizes r 0 h
  have h1 := geSize_get?_false sizes r 1 h
  have h2 := geSize_get?_false sizes r 2 h
  have h3 := geSize_get?_false sizes r 3 h
  unfold sizeLevel hierarchyOf
  simp only [h0, h1, h2, h3, Bool.and_false, Bool.false_and, Bool.false_eq_true, if_false]

/-- For every document with at least one surviving run (dummy data off) in which no font
size of a run is greater than the body size, the size-based step gives no level, every line
gets the level H3 or none (no line is classified H1 or H2), every heading candidate has
level H3, the title is the placeholder "Document Analysis Complete", and the returned
outline is the fixed fallback outline or has H3 entries only. -/
theorem only_H3_of_no_larger_size (pages : List (List TextContentItem)) (hy : Hierarchy)
    (hh : hierarchy (allText pages) = some hy)
    (hno : ∀ size ∈ (fontSizeMap (allText pages)).map Prod.fst, size ≤ hy.bodySize) :
    allText pages ≠ [] ∧
      (∀ lineItems ∈ lines (allText pages), sizeLevel hy (roundedSize lineItems) = none) ∧
      (∀ lineItems ∈ lines (allText pages),
        detectLevel hy lineItems = none ∨ detectLevel hy lineItems = some Level.H3) ∧
      (∀ c ∈ (classify hy (allText pages)).outline, c.level = Level.H3) ∧
      (extractOutline false (Load.loaded pages)).title = "Document Analysis Complete".toList ∧
      ((extractOutline false (Load.loaded pages)).outline = fallbackOutline ∨
        ∀ e ∈ (extractOutline false (Load.loaded pages)).outline, e.level = Level.H3) := by
  obtain ⟨_, heq⟩ := hierarchy_eq _ hy hh
  have hgt := headingSizes_gt (sortedSizes (fontSizeMap (allText pages))) hy.bodySize
  have hround : ∀ lineItems ∈ lines (allText pages), roundedSize lineItems ≤ hy.bodySize := by
    intro l hl
    exact roundedSize_le l _ (lines_ne_nil _ l hl) (fun it hit =>
      hno _ (fontSize_mem_keys _ it (lines_subset _ l hl it hit)))
  have hsz : ∀ lineItems ∈ lines (allText pages),
      sizeLevel hy (roundedSize lineItems) = none := by
    intro l hl
    rw [heq]
    apply sizeLevel_none_of_lt
    intro s hs
    have := hgt s hs
    have := hround l hl
    omega
  have hlev : ∀ lineItems ∈ lines (allText pages),
      detectLevel hy lineItems = none ∨ detectLevel hy lineItems = some Level.H3 := by
    intro l hl
    unfold detectLevel
    rw [hsz l hl]
    exact heuristicLevel_of_le hy _ l _ (hround l hl)
  have hcand : ∀ c ∈ (classify hy (allText pages)).outline, c.level = Level.H3 := by
    intro c hc
    obtain ⟨pre, l, post, h1, _, _, h4, _, _⟩ := (loopInvariant_classify hy _).1 c hc
    have hl : l ∈ lines (allText pages) := by rw [h1]; simp
    rcases hlev l hl with h5 | h5
    · rw [h5] at h4; exact Option.noConfusion h4
    · rw [h5] at h4
      simp only [Option.some.injEq] at h4
      exact h4.symm
  have htitle : (classify hy (allText pages)).title = [] := by
    apply processLines_title_unset hy _ ClassifyState.init rfl
    intro pre l post hl
    have hm : l ∈ lines (allText pages) := by rw [hl]; simp
    unfold claimsTitle
    rw [hsz l hm]
    have hd : detectLevel hy l = heuristicLevel hy (lineText l) l (roundedSize l) := by
      unfold detectLevel
      rw [hsz l hm]
    have hne : heuristicLevel hy (lineText l) l (roundedSize l) ≠ some Level.H1 := by
      rw [← hd]
      rcases hlev l hm with h5 | h5 <;> rw [h5] <;> simp
    simp [hne]
  have hres := extractOutline_of_hierarchy pages hy hh
  refine ⟨hierarchy_some_ne_nil _ hy hh, hsz, hlev, hcand, ?_, ?_⟩
  · rw [hres, assemble_title, htitle]
    rfl
  · rw [hres, assemble_outline]
    split_ifs with hc
    · exact Or.inl rfl
    · right
      intro e he
      have he2 := (sortedOutline_perm _).mem_iff.mp he
      obtain ⟨c, hc2, hec⟩ := cleanOutline_mem _ e he2
      rw [hec]
      exact hcand c hc2

/-- C15 (the failing input): the page with the single run "Title line" of scale `1e21` uses
a single font size, `10^21`; the body size is 1 (the key `1e+21` read back by `parseInt`),
so that the font size is greater than the body size, the line "Title line" is classified H1
by the heuristic step (its size is at least the body size plus 3), the title is
"Title line" and the outline is the one H1 entry. -/
theorem single_huge_size_is_H1 :
    (∀ a ∈ allText hugeSizeDocument, ∀ b ∈ allText hugeSizeDocument,
        a.fontSize = b.fontSize) ∧
      hierarchy (allText hugeSizeDocument) =
        some { H1Size := none, H2Size := none, H3Size := none, H4Size := none,
               bodySize := 1 } ∧
      lines (allText hugeSizeDocument) =
        [[{ text := "Title line".toList, fontSize := 10 ^ 21, y := 700, page := 1, x := 0 }]] ∧
      detectLevel
          { H1Size := none, H2Size := none, H3Size := none, H4Size := none, bodySize := 1 }
          [{ text := "Title line".toList, fontSize := 10 ^ 21, y := 700, page := 1, x := 0 }]
        = some Level.H1 ∧
      (extractOutline false (Load.loaded hugeSizeDocument)).title = "Title line".toList ∧
      (extractOutline false (Load.loaded hugeSizeDocument)).outline =
        [{ level := Level.H1, text := "Title line".toList, page := 1 }] := by
  decide!

/-! ## Line text -/

theorem dropWhile_eq_cons {α : Type} (p : α → Bool) (l : List α) (d : α) (r : List α)
    (h : l.dropWhile p = d :: r) : p d = false := by
  induction l with
  | nil => simp at h
  | cons x xs ih =>
    by_cases hx : p x = true
    · rw [List.dropWhile_cons_of_pos hx] at h
      exact ih h
    · rw [List.dropWhile_cons_of_neg hx] at h
      simp only [List.cons.injEq] at h
      rw [← h.1]
      simpa using hx

theorem trim_ends (s : Str) (hne : trim s ≠ []) :
    (∃ c t, trim s = c :: t ∧ isWhiteSpace c = false) ∧
      ∃ d r, (trim s).reverse = d :: r ∧ isWhiteSpace d = false := by
  unfold trim at hne ⊢
  rw [List.reverse_reverse]
  have hv : ((s.dropWhile isWhiteSpace).reverse.dropWhile isWhiteSpace) ≠ [] := by
    intro e
    rw [e] at hne
    exact hne rfl
  cases hvv : (s.dropWhile isWhiteSpace).reverse.dropWhile isWhiteSpace with
  | nil => exact absurd hvv hv
  | cons d r =>
    have hd := dropWhile_eq_cons isWhiteSpace _ d r hvv
    refine ⟨?_, d, r, rfl, hd⟩
    obtain ⟨w, hw⟩ := List.dropWhile_suffix (l := (s.dropWhile isWhiteSpace).reverse) isWhiteSpace
    rw [hvv] at hw
    have hu : s.dropWhile isWhiteSpace = (d :: r).reverse ++ w.reverse := by
      have := congrArg List.reverse hw
      rw [List.reverse_append, List.reverse_reverse] at this
      exact this.symm
    cases hrev : (d :: r).reverse with
    | nil => simp at hrev
    | cons c t =>
      refine ⟨c, t, rfl, ?_⟩
      rw [hrev] at hu
      exact dropWhile_eq_cons isWhiteSpace s c (t ++ w.reverse) hu

theorem trim_eq_self (s : Str) (c : Char) (t : Str) (d : Char) (r : Str)
    (h1 : s = c :: t) (hc : isWhiteSpace c = false)
    (h2 : s.reverse = d :: r) (hd : isWhiteSpace d = false) : trim s = s := by
  unfold trim
  have e1 : s.dropWhile isWhiteSpace = s := by
    rw [h1]
    exact List.dropWhile_cons_of_neg (by simp [hc])
  rw [e1, h2]
  have e2 : (d :: r).dropWhile isWhiteSpace = d :: r :=
    List.dropWhile_cons_of_neg (by simp [hd])
  rw [e2, ← h2, List.reverse_reverse]

theorem joinSpace_cons_cons (x y : Str) (rest : List Str) :
    joinSpace (x :: y :: rest) = x ++ ' ' :: joinSpace (y :: rest) := by
  simp [joinSpace, List.intercalate]

theorem joinSpace_singleton (x : Str) : joinSpace [x] = x := by
  simp [joinSpace, List.intercalate]

theorem joinSpace_ends (parts : List Str) (hne : parts ≠ [])
    (h : ∀ p ∈ parts, (∃ c t, p = c :: t ∧ isWhiteSpace c = false) ∧
      ∃ d r, p.reverse = d :: r ∧ isWhiteSpace d = false) :
    (∃ c t, joinSpace parts = c :: t ∧ isWhiteSpace c = false) ∧
      ∃ d r, (joinSpace parts).reverse = d :: r ∧ isWhiteSpace d = false := by
  induction parts with
  | nil => exact absurd rfl hne
  | cons x rest ih =>
    cases rest with
    | nil =>
      rw [joinSpace_singleton]
      exact h x (List.mem_cons_self _ _)
    | cons y rest2 =>
      rw [joinSpace_cons_cons]
      obtain ⟨⟨c, t, hx, hc⟩, _⟩ := h x (List.mem_cons_self _ _)
      obtain ⟨_, ⟨d, r, hr, hd⟩⟩ :=
        ih (List.cons_ne_nil _ _) (fun p hp => h p (List.mem_cons_of_mem _ hp))
      refine ⟨⟨c, t ++ ' ' :: joinSpace (y :: rest2), by rw [hx]; rfl, hc⟩, ?_⟩
      refine ⟨d, r ++ ' ' :: x.reverse, ?_, hd⟩
      rw [List.reverse_append, List.reverse_cons, hr]
      simp

theorem allText_text_ends (pages : List (List TextContentItem)) (item : TextItem)
    (h : item ∈ allText pages) :
    (∃ c t, item.text = c :: t ∧ isWhiteSpace c = false) ∧
      ∃ d r, item.text.reverse = d :: r ∧ isWhiteSpace d = false := by
  obtain ⟨content, _, raw, _, ht, hlen⟩ := collectPages_text pages 1 item h
  rw [ht]
  apply trim_ends
  intro e
  rw [ht, e] at hlen
  simp at hlen

theorem lineText_eq_joinSpace (pages : List (List TextContentItem))
    (lineItems : List TextItem) (h : lineItems ∈ lines (allText pages)) :
    lineText lineItems = joinSpace ((sortedLineItems lineItems).map (fun item => item.text)) := by
  have hperm : (sortedLineItems lineItems).Perm lineItems := jsSort_perm _ _
  have hne : (sortedLineItems lineItems).map (fun item => item.text) ≠ [] := by
    intro e
    have h0 : sortedLineItems lineItems = [] := List.map_eq_nil_iff.mp e
    have := hperm.length_eq
    rw [h0] at this
    exact lines_ne_nil _ lineItems h (List.length_eq_zero.mp this.symm)
  have hends : ∀ p ∈ (sortedLineItems lineItems).map (fun item => item.text),
      (∃ c t, p = c :: t ∧ isWhiteSpace c = false) ∧
        ∃ d r, p.reverse = d :: r ∧ isWhiteSpace d = false := by
    intro p hp
    rw [List.mem_map] at hp
    obtain ⟨it, hit, e⟩ := hp
    rw [← e]
    exact allText_text_ends pages it (lines_subset _ lineItems h it (hperm.mem_iff.mp hit))
  obtain ⟨⟨c, t, h1, hc⟩, ⟨d, r, h2, hd⟩⟩ := joinSpace_ends _ hne hends
  unfold lineText
  exact trim_eq_self _ c t d r h1 hc h2 hd

theorem xCompare_nonpos_iff (a b : TextItem) : xCompare a b ≤ 0 ↔ a.x ≤ b.x := by
  unfold xCompare
  rw [Int.cast_nonpos]
  omega

theorem sortedLineItems_sorted (lineItems : List TextItem) :
    (sortedLineItems lineItems).Pairwise (fun a b => a.x ≤ b.x) := by
  haveI : IsTotal TextItem (fun a b => xCompare a b ≤ 0) :=
    ⟨fun a b => by
      simp only [xCompare_nonpos_iff]
      exact le_total a.x b.x⟩
  haveI : IsTrans TextItem (fun a b => xCompare a b ≤ 0) :=
    ⟨fun a b c => by
      simp only [xCompare_nonpos_iff]
      exact le_trans⟩
  have h := List.sorted_insertionSort (fun a b : TextItem => xCompare a b ≤ 0) lineItems
  exact List.Pairwise.imp (fun {a b} hab => (xCompare_nonpos_iff a b).mp hab) h

theorem sortedLineItems_stable (lineItems : List TextItem) (a b : TextItem)
    (hab : List.Sublist [a, b] lineItems) (hx : a.x ≤ b.x) :
    List.Sublist [a, b] (sortedLineItems lineItems) :=
  List.pair_sublist_insertionSort ((xCompare_nonpos_iff a b).mpr hx) hab

theorem lineKey_eq_iff (a b : TextItem) :
    lineKey a = lineKey b ↔
      (a.page = b.page ∧
        mathRound ((a.y : ℚ) / 3) * 3 = mathRound ((b.y : ℚ) / 3) * 3) := by
  unfold lineKey
  exact Prod.mk.injEq _ _ _ _ ▸ Iff.rfl

theorem lines_same_line_iff (items : List TextItem) (a b : TextItem)
    (ha : a ∈ items) (hb : b ∈ items) :
    (∃ lineItems ∈ lines items, a ∈ lineItems ∧ b ∈ lineItems) ↔ lineKey a = lineKey b := by
  constructor
  · rintro ⟨g, hg, hag, hbg⟩
    obtain ⟨key, _, hf, _⟩ := lines_mem items g hg
    rw [hf] at hag hbg
    have h1 := (List.mem_filter.mp hag).2
    have h2 := (List.mem_filter.mp hbg).2
    simp only [decide_eq_true_eq] at h1 h2
    rw [h1, h2]
  · intro hk
    have hat : linesAt (items.foldl pushLine []) (lineKey a)
        = items.filter (fun item => decide (lineKey item = lineKey a)) := by
      rw [linesAt_foldl]
      simp [linesAt]
    have hamem : a ∈ linesAt (items.foldl pushLine []) (lineKey a) := by
      rw [hat]
      exact List.mem_filter.mpr ⟨ha, by simp⟩
    have hbmem : b ∈ linesAt (items.foldl pushLine []) (lineKey a) := by
      rw [hat]
      exact List.mem_filter.mpr ⟨hb, by simp [hk]⟩
    have hne : linesAt (items.foldl pushLine []) (lineKey a) ≠ [] :=
      List.ne_nil_of_mem hamem
    refine ⟨linesAt (items.foldl pushLine []) (lineKey a), ?_, hamem, hbmem⟩
    unfold lines
    exact List.mem_map.mpr ⟨_, mem_of_linesAt_ne_nil _ _ hne, rfl⟩

theorem lines_keys_distinct (items : List TextItem) :
    (lines items).Pairwise
      (fun g1 g2 => ∀ a ∈ g1, ∀ b ∈ g2, lineKey a ≠ lineKey b) := by
  unfold lines
  rw [List.pairwise_map]
  have hn : ((items.foldl pushLine []).map Prod.fst).Nodup :=
    lines_foldl_nodup items [] (by simp)
  unfold List.Nodup at hn
  rw [List.pairwise_map] at hn
  refine List.Pairwise.imp_of_mem ?_ hn
  intro p q hp hq hne a ha b hb
  have h1 := lines_mem items p.2 (by unfold lines; exact List.mem_map_of_mem Prod.snd hp)
  have hp1 := linesAt_of_mem _ p.1 p.2 (lines_foldl_nodup items [] (by simp)) hp
  have hq1 := linesAt_of_mem _ q.1 q.2 (lines_foldl_nodup items [] (by simp)) hq
  rw [linesAt_foldl] at hp1 hq1
  simp only [linesAt, List.nil_append] at hp1 hq1
  rw [← hp1] at ha
  rw [← hq1] at hb
  have ka := (List.mem_filter.mp ha).2
  have kb := (List.mem_filter.mp hb).2
  simp only [decide_eq_true_eq] at ka kb
  rw [ka, kb]
  exact hne

theorem pageNum_eq (items : List TextItem) (lineItems : List TextItem)
    (h : lineItems ∈ lines items) : ∀ item ∈ lineItems, pageNum lineItems = item.page := by
  obtain ⟨key, _, hf, _⟩ := lines_mem items lineItems h
  have hkey : ∀ it ∈ lineItems, it.page = key.1 := by
    intro it hit
    rw [hf] at hit
    have := (List.mem_filter.mp hit).2
    simp only [decide_eq_true_eq] at this
    rw [← this]
    rfl
  have hperm : (sortedLineItems lineItems).Perm lineItems := jsSort_perm _ _
  intro it hit
  unfold pageNum
  cases hs : sortedLineItems lineItems with
  | nil =>
    have := hperm.length_eq
    rw [hs] at this
    exact absurd (List.length_eq_zero.mp this.symm) (lines_ne_nil _ lineItems h)
  | cons first rest =>
    have hfm : first ∈ lineItems := hperm.mem_iff.mp (by rw [hs]; exact List.mem_cons_self _ _)
    simp only
    rw [hkey first hfm, hkey it hit]

/-- C14: for the glyph runs of every document, two runs are in the same line exactly when
they have the same page and the same quantized vertical coordinate `round(y / 3) * 3`, and
runs of different lines differ in one of the two.  A line is not empty and holds, in
collection order, the runs of its key; its text is the texts of its runs, ordered by
ascending `x` (two runs whose `x` are in order, equal in particular, keep their collection
order), joined by single spaces; its page is the page of each of its members, the first
included. -/
theorem line_assembly (pages : List (List TextContentItem)) :
    (∀ a ∈ allText pages, ∀ b ∈ allText pages,
      (∃ lineItems ∈ lines (allText pages), a ∈ lineItems ∧ b ∈ lineItems) ↔
        (a.page = b.page ∧
          mathRound ((a.y : ℚ) / 3) * 3 = mathRound ((b.y : ℚ) / 3) * 3)) ∧
    (lines (allText pages)).Pairwise
      (fun g1 g2 => ∀ a ∈ g1, ∀ b ∈ g2,
        ¬ (a.page = b.page ∧
          mathRound ((a.y : ℚ) / 3) * 3 = mathRound ((b.y : ℚ) / 3) * 3)) ∧
    (∀ lineItems ∈ lines (allText pages),
      lineItems ≠ [] ∧
      (∃ key, lineItems
        = (allText pages).filter (fun item => decide (lineKey item = key))) ∧
      lineText lineItems
        = joinSpace ((sortedLineItems lineItems).map (fun item => item.text)) ∧
      (sortedLineItems lineItems).Perm lineItems ∧
      (sortedLineItems lineItems).Pairwise (fun a b => a.x ≤ b.x) ∧
      (∀ a b, List.Sublist [a, b] lineItems → a.x ≤ b.x →
        List.Sublist [a, b] (sortedLineItems lineItems)) ∧
      (∀ item ∈ lineItems, pageNum lineItems = item.page) ∧
      lineItems.head?.map (fun item => item.page) = some (pageNum lineItems)) := by
  refine ⟨?_, ?_, ?_⟩
  · intro a ha b hb
    rw [lines_same_line_iff _ a b ha hb, lineKey_eq_iff]
  · refine List.Pairwise.imp ?_ (lines_keys_distinct (allText pages))
    intro g1 g2 h a ha b hb hk
    exact h a ha b hb ((lineKey_eq_iff a b).mpr hk)
  · intro g hg
    obtain ⟨key, _, hf, _⟩ := lines_mem _ g hg
    have hne := lines_ne_nil _ g hg
    refine ⟨hne, ⟨key, hf⟩, lineText_eq_joinSpace pages g hg, jsSort_perm _ _,
      sortedLineItems_sorted g, fun a b hab hx => sortedLineItems_stable g a b hab hx,
      pageNum_eq _ g hg, ?_⟩
    cases hgc : g with
    | nil => exact absurd hgc hne
    | cons first rest =>
      have := pageNum_eq _ g hg first (by rw [hgc]; exact List.mem_cons_self _ _)
      rw [hgc] at this
      simp [this]

/-- C14, at a page with the runs "Annual" (x = 100, y = 700) and "Report" (x = 10, y = 699):
they share the band 699 and make the one line "Report Annual". -/
theorem line_assembly_witness :
    lines (allText twoRunLineDocument) =
        [[ { text := "Annual".toList, fontSize := 12, y := 700, page := 1, x := 100 },
           { text := "Report".toList, fontSize := 12, y := 699, page := 1, x := 10 } ]] ∧
      lineText
          [ { text := "Annual".toList, fontSize := 12, y := 700, page := 1, x := 100 },
            { text := "Report".toList, fontSize := 12, y := 699, page := 1, x := 10 } ]
        = "Report Annual".toList ∧
      ((∃ lineItems ∈ lines (allText twoRunLineDocument),
          ({ text := "Annual".toList, fontSize := 12, y := 700, page := 1, x := 100 }
            : TextItem) ∈ lineItems ∧
          ({ text := "Report".toList, fontSize := 12, y := 699, page := 1, x := 10 }
            : TextItem) ∈ lineItems) ↔
        ((1 : Nat) = 1 ∧
          mathRound (((700 : Int) : ℚ) / 3) * 3 = mathRound (((699 : Int) : ℚ) / 3) * 3)) :=
  ⟨by decide!, by decide!,
    (line_assembly twoRunLineDocument).1
      { text := "Annual".toList, fontSize := 12, y := 700, page := 1, x := 100 } (by decide!)
      { text := "Report".toList, fontSize := 12, y := 699, page := 1, x := 10 } (by decide!)⟩

/-! ## Documents with a single font size -/

theorem fontSizeMap_foldl_keys (items : List TextItem) (m : FontSizeMap) (size : Int)
    (h : size ∈ (items.foldl (fun m item => FontSizeMap.add m item.fontSize item.text.length)
      m).map Prod.fst) :
    size ∈ m.map Prod.fst ∨ ∃ item ∈ items, item.fontSize = size := by
  induction items generalizing m with
  | nil => exact Or.inl h
  | cons item rest ih =>
    simp only [List.foldl_cons] at h
    rcases ih _ h with h1 | ⟨it, hit, hs⟩
    · rw [FontSizeMap.add_keys] at h1
      split_ifs at h1
      · exact Or.inl h1
      · rcases List.mem_append.mp h1 with h2 | h2
        · exact Or.inl h2
        · rw [List.mem_singleton] at h2
          exact Or.inr ⟨item, List.mem_cons_self _ _, h2.symm⟩
    · exact Or.inr ⟨it, List.mem_cons_of_mem _ hit, hs⟩

/-- A document whose surviving runs all have the same font size, which reads back from its
key (magnitude below `10^21`), has no size above its body size. -/
theorem single_size_has_no_larger (pages : List (List TextContentItem)) (hy : Hierarchy)
    (hh : hierarchy (allText pages) = some hy)
    (hparse : ∀ s ∈ (fontSizeMap (allText pages)).map Prod.fst, parseKey s = s)
    (hs : ∀ a ∈ allText pages, ∀ b ∈ allText pages, a.fontSize = b.fontSize) :
    ∀ size ∈ (fontSizeMap (allText pages)).map Prod.fst, size ≤ hy.bodySize := by
  intro size hsize
  obtain ⟨hb, _⟩ := hierarchy_eq _ hy hh
  have hbody : hy.bodySize ∈ (fontSizeMap (allText pages)).map Prod.fst :=
    (sortedSizes_perm_of_readable _ hparse).mem_iff.mp (bodySize_spec _ _ _ hb)
  rcases fontSizeMap_foldl_keys (allText pages) [] size hsize with h1 | ⟨a, ha, e1⟩
  · simp at h1
  · rcases fontSizeMap_foldl_keys (allText pages) [] hy.bodySize hbody with h2 | ⟨b, hb2, e2⟩
    · simp at h2
    · rw [← e1, ← e2, hs a ha b hb2]

end ExtractOutline
